import Mathlib

/-!
# A shallow embedding of the `svh::scope` settings tree

This file models the hierarchical, type-indexed settings registry of the
repository (the `svh::scope` class template of the header, newer variant:
the one with the `member_id` triple, `active_member` bookkeeping and the
templated `BaseTemplate` payload), and proves the specification claims
about it.

Modelling conventions:
* Nodes live in an append-only arena (`Tree.nodes`); a `NodeId` is the
  arena index and plays the role of C++ object identity (`scope*`).
  Children created by the API always point to an earlier-created parent,
  so every parent index is strictly below the child's own index; the
  recursive walks below guard their ascent with `p < i`, which is the
  arena counterpart of following a parent pointer in the source.
* A settings payload (the fields a `type_settings<T>` specialization
  declares, e.g. `_min`/`_max` in the tests) is modelled as a `List Int`
  of field values; the application-supplied default-constructed values of
  a payload type are an arbitrary function `df : TypeId → List Int`
  threaded through the mutating operations.
* `dynamic_cast` checks become comparisons of the stored node's dynamic
  type `Node.ty` against the expected type; a failing cast is the
  `Err.typeMismatch` outcome, and C++ exceptions in general become
  `Except Err` results.
* The compile-time policy switch `SVH_AUTO_INSERT` is threaded as an
  explicit `Bool` argument of the `get` operations.
-/

namespace SvhScope

/-- Runtime identity of a decayed C++ type (`std::type_index` of
`std::decay_t<T>`). -/
abbrev TypeId := Nat

/-- Arena index of a node; models `scope*` object identity. -/
abbrev NodeId := Nat

/-- `svh::scope::member_id`: the triple (owning struct type, decayed member
type, byte offset) identifying one data member.  The C++ sentinel invalid
value (`void`, `void`, `SIZE_MAX`) is modelled by wrapping `MemberId` in
`Option` at every use site, so `none` is the invalid key. -/
structure MemberId where
  structType : TypeId
  memberType : TypeId
  offset : Nat
deriving DecidableEq, Repr

/-- One `svh::scope` node: the parent back-pointer, the node's dynamic type
(the `T` of the `BaseTemplate<T>` object it really is), its settings
payload, the type-keyed child map `children`, the member-keyed child map
`member_children`, and the `active_member` field recording the member key
this node carries inside its parent (when it was created by
`push_member`). -/
structure Node where
  parent : Option NodeId
  ty : TypeId
  payload : List Int
  children : List (TypeId × NodeId)
  memberChildren : List (MemberId × NodeId)
  activeMember : Option MemberId
deriving DecidableEq, Repr

instance : Inhabited Node := ⟨⟨none, 0, [], [], [], none⟩⟩

/-- The arena of nodes.  Index 0 is the root scope in all trees built by
the claims' witnesses. -/
structure Tree where
  nodes : List Node
deriving DecidableEq, Repr

/-- Fetch a node from the arena (total; out-of-range indices, which the
API never produces, yield the default node). -/
def Tree.node (t : Tree) (i : NodeId) : Node := t.nodes.getD i default

def Tree.size (t : Tree) : Nat := t.nodes.length

def Tree.setNode (t : Tree) (i : NodeId) (nd : Node) : Tree := ⟨t.nodes.set i nd⟩

/-- Lookup in one of the node-local key maps (`std::unordered_map::find`).
The maps hold at most one entry per key in trees built by the API, since
every insertion is guarded by a failed lookup. -/
def assoc {α β : Type} [DecidableEq α] : List (α × β) → α → Option β
  | [], _ => none
  | (a, b) :: r, k => if a = k then some b else assoc r k

/-- The synchronous failures of the API (`std::runtime_error` throws). -/
inductive Err where
  /-- "Existing child has unexpected type" / "Existing member child has
  unexpected type": a failing `dynamic_cast` at a stored node. -/
  | typeMismatch
  /-- "Type not found" / "Member settings not found". -/
  | notFound
  /-- "Member is not within instance bounds". -/
  | outOfBounds
  /-- "No parent to pop to". -/
  | noParent
deriving DecidableEq, Repr

/-! ## The non-mutating walks

They are defined with an explicit structural fuel so that concrete
evaluations reduce inside the kernel; the fuel `i + 1` always suffices
because every ascent strictly decreases the node index.  The lemmas
`findT_eq`, `findMember_eq`, `findMemberRuntime_eq` and `chain_eq` recover
the fuel-free recurrences that mirror the source. -/

/-- Fuel-indexed body of `svh::scope::find<T>(child_member_id)`. -/
def findTA (t : Tree) (T : TypeId) : Nat → NodeId → Option MemberId → Except Err (Option NodeId)
  | 0, _, _ => .ok none
  | b + 1, i, id? =>
    let probe : Option NodeId :=
      match id? with
      | some k => assoc (t.node i).memberChildren k
      | none => assoc (t.node i).children T
    match probe with
    | some j => if (t.node j).ty = T then .ok (some j) else .error .typeMismatch
    | none =>
      match (t.node i).parent with
      | some p => if p < i then findTA t T b p (t.node i).activeMember else .ok none
      | none => .ok none

/-- `svh::scope::find<T>(child_member_id)`: when the incoming member key is
valid, probe this node's member map under it, otherwise probe the
type-keyed children for `T`; a hit is checked against the expected dynamic
type, and a miss ascends to the parent passing this node's
`active_member` as the next key. -/
def findT (t : Tree) (T : TypeId) (i : NodeId) (id? : Option MemberId) : Except Err (Option NodeId) :=
  findTA t T (i + 1) i id?

theorem findTA_irrel (t : Tree) (T : TypeId) :
    ∀ b b' i id?, i < b → i < b' → findTA t T b i id? = findTA t T b' i id? := by
  intro b
  induction b with
  | zero => intro b' i id? h; exact absurd h (Nat.not_lt_zero i)
  | succ b ih =>
    intro b' i id? hb hb'
    cases b' with
    | zero => exact absurd hb' (Nat.not_lt_zero i)
    | succ b2 =>
      simp only [findTA]
      cases hm : (match id? with
        | some k => assoc (t.node i).memberChildren k
        | none => assoc (t.node i).children T) with
      | some j => rfl
      | none =>
        cases hp : (t.node i).parent with
        | none => rfl
        | some p =>
          by_cases hpi : p < i
          · simp only [hpi, if_true]
            exact ih b2 p (t.node i).activeMember
              (Nat.lt_of_lt_of_le hpi (Nat.lt_succ_iff.mp hb))
              (Nat.lt_of_lt_of_le hpi (Nat.lt_succ_iff.mp hb'))
          · simp [hpi]

/-- The fuel-free recurrence of `findT`, matching the source line for
line. -/
theorem findT_eq (t : Tree) (T : TypeId) (i : NodeId) (id? : Option MemberId) :
    findT t T i id? =
      (match (match id? with
        | some k => assoc (t.node i).memberChildren k
        | none => assoc (t.node i).children T) with
      | some j => if (t.node j).ty = T then .ok (some j) else .error .typeMismatch
      | none =>
        match (t.node i).parent with
        | some p => if p < i then findT t T p (t.node i).activeMember else .ok none
        | none => .ok none) := by
  show findTA t T (i + 1) i id? = _
  simp only [findTA]
  cases hm : (match id? with
    | some k => assoc (t.node i).memberChildren k
    | none => assoc (t.node i).children T) with
  | some j => rfl
  | none =>
    cases hp : (t.node i).parent with
    | none => rfl
    | some p =>
      by_cases hpi : p < i
      · simp only [hpi, if_true]
        exact findTA_irrel t T i (p + 1) p (t.node i).activeMember hpi (Nat.lt_succ_self p)
      · simp [hpi]

/-- Fuel-indexed body of the ancestor chain of a node (the node itself,
its parent, its grandparent, …): the sequence of scopes `pop` walks. -/
def chainA (t : Tree) : Nat → NodeId → List NodeId
  | 0, _ => []
  | b + 1, i =>
    i :: (match (t.node i).parent with
      | some p => if p < i then chainA t b p else []
      | none => [])

/-- The ancestor chain of a node, starting at the node itself. -/
def chain (t : Tree) (i : NodeId) : List NodeId := chainA t (i + 1) i

theorem chainA_irrel (t : Tree) :
    ∀ b b' i, i < b → i < b' → chainA t b i = chainA t b' i := by
  intro b
  induction b with
  | zero => intro b' i h; exact absurd h (Nat.not_lt_zero i)
  | succ b ih =>
    intro b' i hb hb'
    cases b' with
    | zero => exact absurd hb' (Nat.not_lt_zero i)
    | succ b2 =>
      simp only [chainA]
      cases hp : (t.node i).parent with
      | none => rfl
      | some p =>
        by_cases hpi : p < i
        · simp only [hpi, if_true]
          rw [ih b2 p (Nat.lt_of_lt_of_le hpi (Nat.lt_succ_iff.mp hb))
            (Nat.lt_of_lt_of_le hpi (Nat.lt_succ_iff.mp hb'))]
        · simp [hpi]

/-- The fuel-free recurrence of `chain`. -/
theorem chain_eq (t : Tree) (i : NodeId) :
    chain t i =
      i :: (match (t.node i).parent with
        | some p => if p < i then chain t p else []
        | none => []) := by
  show chainA t (i + 1) i = _
  simp only [chainA]
  cases hp : (t.node i).parent with
  | none => rfl
  | some p =>
    by_cases hpi : p < i
    · simp only [hpi, if_true]
      rw [chainA_irrel t i (p + 1) p hpi (Nat.lt_succ_self p)]
      rfl
    · simp [hpi]

/-- Fuel-indexed body of `svh::scope::find_member<member>` (the
compile-time form). -/
def findMemberA (t : Tree) (k : MemberId) : Nat → NodeId → Except Err (Option NodeId)
  | 0, _ => .ok none
  | b + 1, i =>
    /- (a) this node's member map -/
    match assoc (t.node i).memberChildren k with
    | some j => if (t.node j).ty = k.memberType then .ok (some j) else .error .typeMismatch
    | none =>
      /- (b) the type-keyed child for the owning struct type, searched via
      its `find<MemberType>` seeded with the full member key -/
      let afterB : Except Err (Option NodeId) :=
        match assoc (t.node i).children k.structType with
        | some s =>
          if (t.node s).ty = k.structType then findT t k.memberType s (some k)
          else .error .typeMismatch
        | none => .ok none
      match afterB with
      | .error e => .error e
      | .ok (some j) => .ok (some j)
      | .ok none =>
        /- (c) the type-keyed child for the member's own type -/
        match assoc (t.node i).children k.memberType with
        | some ms => if (t.node ms).ty = k.memberType then .ok (some ms) else .error .typeMismatch
        | none =>
          /- (d) recurse to the parent -/
          match (t.node i).parent with
          | some p => if p < i then findMemberA t k b p else .ok none
          | none => .ok none

/-- `svh::scope::find_member<member>`: member map, then the owning-struct
child's seeded `find`, then the member-type child, then the parent. -/
def findMember (t : Tree) (i : NodeId) (k : MemberId) : Except Err (Option NodeId) :=
  findMemberA t k (i + 1) i

theorem findMemberA_irrel (t : Tree) (k : MemberId) :
    ∀ b b' i, i < b → i < b' → findMemberA t k b i = findMemberA t k b' i := by
  intro b
  induction b with
  | zero => intro b' i h; exact absurd h (Nat.not_lt_zero i)
  | succ b ih =>
    intro b' i hb hb'
    cases b' with
    | zero => exact absurd hb' (Nat.not_lt_zero i)
    | succ b2 =>
      simp only [findMemberA]
      cases hm : assoc (t.node i).memberChildren k with
      | some j => rfl
      | none =>
        cases hb2 : (match assoc (t.node i).children k.structType with
          | some s =>
            if (t.node s).ty = k.structType then findT t k.memberType s (some k)
            else Except.error Err.typeMismatch
          | none => Except.ok none) with
        | error e => rfl
        | ok o =>
          cases o with
          | some j => rfl
          | none =>
            cases hc : assoc (t.node i).children k.memberType with
            | some ms => rfl
            | none =>
              cases hp : (t.node i).parent with
              | none => rfl
              | some p =>
                by_cases hpi : p < i
                · simp only [hpi, if_true]
                  exact ih b2 p (Nat.lt_of_lt_of_le hpi (Nat.lt_succ_iff.mp hb))
                    (Nat.lt_of_lt_of_le hpi (Nat.lt_succ_iff.mp hb'))
                · simp [hpi]

/-- The fuel-free recurrence of `findMember`, matching the source. -/
theorem findMember_eq (t : Tree) (i : NodeId) (k : MemberId) :
    findMember t i k =
      (match assoc (t.node i).memberChildren k with
      | some j => if (t.node j).ty = k.memberType then .ok (some j) else .error .typeMismatch
      | none =>
        match (match assoc (t.node i).children k.structType with
          | some s =>
            if (t.node s).ty = k.structType then findT t k.memberType s (some k)
            else Except.error Err.typeMismatch
          | none => Except.ok none) with
        | .error e => .error e
        | .ok (some j) => .ok (some j)
        | .ok none =>
          match assoc (t.node i).children k.memberType with
          | some ms => if (t.node ms).ty = k.memberType then .ok (some ms) else .error .typeMismatch
          | none =>
            match (t.node i).parent with
            | some p => if p < i then findMember t p k else .ok none
            | none => .ok none) := by
  show findMemberA t k (i + 1) i = _
  simp only [findMemberA]
  cases hm : assoc (t.node i).memberChildren k with
  | some j => rfl
  | none =>
    cases hb2 : (match assoc (t.node i).children k.structType with
      | some s =>
        if (t.node s).ty = k.structType then findT t k.memberType s (some k)
        else Except.error Err.typeMismatch
      | none => Except.ok none) with
    | error e => rfl
    | ok o =>
      cases o with
      | some j => rfl
      | none =>
        cases hc : assoc (t.node i).children k.memberType with
        | some ms => rfl
        | none =>
          cases hp : (t.node i).parent with
          | none => rfl
          | some p =>
            by_cases hpi : p < i
            · simp only [hpi, if_true]
              exact findMemberA_irrel t k i (p + 1) p hpi (Nat.lt_succ_self p)
            · simp [hpi]

/-- Fuel-indexed body of `svh::scope::find_member_runtime(instance, member)`.
Addresses are plain naturals: the instance occupies the byte range
`[instAddr, instAddr + size)` and the supplied field reference sits at
`membAddr`. -/
def findMemberRuntimeA (t : Tree) (Tty Mty : TypeId) (instAddr size membAddr : Nat) :
    Nat → NodeId → Except Err (Option NodeId)
  | 0, _ => .ok none
  | b + 1, i =>
    /- bounds validation of the supplied field reference -/
    if membAddr < instAddr ∨ instAddr + size ≤ membAddr then .error .outOfBounds
    else
      let k : MemberId := ⟨Tty, Mty, membAddr - instAddr⟩
      /- (a) this node's member map -/
      match assoc (t.node i).memberChildren k with
      | some j => if (t.node j).ty = Mty then .ok (some j) else .error .typeMismatch
      | none =>
        /- (b) the type-keyed child for `T`, searched via its plain
        `find<M>()` (no key is passed here, unlike `find_member`) -/
        let afterB : Except Err (Option NodeId) :=
          match assoc (t.node i).children Tty with
          | some s => if (t.node s).ty = Tty then findT t Mty s none else .error .typeMismatch
          | none => .ok none
        match afterB with
        | .error e => .error e
        | .ok (some j) => .ok (some j)
        | .ok none =>
          /- (c) recurse to the parent (there is no member-type-child
          probe in the runtime form) -/
          match (t.node i).parent with
          | some p => if p < i then findMemberRuntimeA t Tty Mty instAddr size membAddr b p else .ok none
          | none => .ok none

/-- `svh::scope::find_member_runtime(instance, member)`. -/
def findMemberRuntime (t : Tree) (i : NodeId) (Tty Mty : TypeId)
    (instAddr size membAddr : Nat) : Except Err (Option NodeId) :=
  findMemberRuntimeA t Tty Mty instAddr size membAddr (i + 1) i

theorem findMemberRuntimeA_irrel (t : Tree) (Tty Mty : TypeId) (instAddr size membAddr : Nat) :
    ∀ b b' i, i < b → i < b' →
      findMemberRuntimeA t Tty Mty instAddr size membAddr b i =
        findMemberRuntimeA t Tty Mty instAddr size membAddr b' i := by
  intro b
  induction b with
  | zero => intro b' i h; exact absurd h (Nat.not_lt_zero i)
  | succ b ih =>
    intro b' i hb hb'
    cases b' with
    | zero => exact absurd hb' (Nat.not_lt_zero i)
    | succ b2 =>
      simp only [findMemberRuntimeA]
      by_cases hob : membAddr < instAddr ∨ instAddr + size ≤ membAddr
      · simp [hob]
      · simp only [hob, if_false]
        cases hm : assoc (t.node i).memberChildren ⟨Tty, Mty, membAddr - instAddr⟩ with
        | some j => rfl
        | none =>
          cases hb2 : (match assoc (t.node i).children Tty with
            | some s => if (t.node s).ty = Tty then findT t Mty s none else Except.error Err.typeMismatch
            | none => Except.ok none) with
          | error e => rfl
          | ok o =>
            cases o with
            | some j => rfl
            | none =>
              cases hp : (t.node i).parent with
              | none => rfl
              | some p =>
                by_cases hpi : p < i
                · simp only [hpi, if_true]
                  exact ih b2 p (Nat.lt_of_lt_of_le hpi (Nat.lt_succ_iff.mp hb))
                    (Nat.lt_of_lt_of_le hpi (Nat.lt_succ_iff.mp hb'))
                · simp [hpi]

/-- The fuel-free recurrence of `findMemberRuntime`, matching the source. -/
theorem findMemberRuntime_eq (t : Tree) (i : NodeId) (Tty Mty : TypeId)
    (instAddr size membAddr : Nat) :
    findMemberRuntime t i Tty Mty instAddr size membAddr =
      (if membAddr < instAddr ∨ instAddr + size ≤ membAddr then .error .outOfBounds
      else
        match assoc (t.node i).memberChildren ⟨Tty, Mty, membAddr - instAddr⟩ with
        | some j => if (t.node j).ty = Mty then .ok (some j) else .error .typeMismatch
        | none =>
          match (match assoc (t.node i).children Tty with
            | some s => if (t.node s).ty = Tty then findT t Mty s none else Except.error Err.typeMismatch
            | none => Except.ok none) with
          | .error e => .error e
          | .ok (some j) => .ok (some j)
          | .ok none =>
            match (t.node i).parent with
            | some p => if p < i then findMemberRuntime t p Tty Mty instAddr size membAddr else .ok none
            | none => .ok none) := by
  show findMemberRuntimeA t Tty Mty instAddr size membAddr (i + 1) i = _
  simp only [findMemberRuntimeA]
  by_cases hob : membAddr < instAddr ∨ instAddr + size ≤ membAddr
  · simp [hob]
  · simp only [hob, if_false]
    cases hm : assoc (t.node i).memberChildren ⟨Tty, Mty, membAddr - instAddr⟩ with
    | some j => rfl
    | none =>
      cases hb2 : (match assoc (t.node i).children Tty with
        | some s => if (t.node s).ty = Tty then findT t Mty s none else Except.error Err.typeMismatch
        | none => Except.ok none) with
      | error e => rfl
      | ok o =>
        cases o with
        | some j => rfl
        | none =>
          cases hp : (t.node i).parent with
          | none => rfl
          | some p =>
            by_cases hpi : p < i
            · simp only [hpi, if_true]
              exact findMemberRuntimeA_irrel t Tty Mty instAddr size membAddr i (p + 1) p hpi
                (Nat.lt_succ_self p)
            · simp [hpi]

/-! ## The mutating operations

`df : TypeId → List Int` is the application-supplied assignment of
default-constructed field values to each payload type. -/

/-- `svh::scope::emplace_new<T>`: append a default-constructed
`BaseTemplate<T>` node (empty child maps, invalid `active_member`), attach
it under node `i`'s type-keyed children, and return it. -/
def emplaceNew (df : TypeId → List Int) (t : Tree) (i : NodeId) (T : TypeId) : Tree × NodeId :=
  let j := t.size
  let child : Node := ⟨some i, T, df T, [], [], none⟩
  (⟨(t.nodes.set i { t.node i with children := (T, j) :: (t.node i).children }) ++ [child]⟩, j)

/-- `svh::scope::_push<T>` (the implementation behind `push<T>()`):
reuse the existing child if present, else — when this node has a parent —
search with `find<T>` and copy-construct the hit (clearing the copied
child maps), else default-construct a new child. -/
def pushT (df : TypeId → List Int) (t : Tree) (i : NodeId) (T : TypeId) :
    Except Err (Tree × NodeId) :=
  match assoc (t.node i).children T with
  | some j => if (t.node j).ty = T then .ok (t, j) else .error .typeMismatch
  | none =>
    if (t.node i).parent.isSome then
      match findT t T i none with
      | .error e => .error e
      | .ok (some a) =>
        /- copy-construct from the found node: payload, dynamic type and
        `active_member` are copied, the child maps are cleared, the parent
        is set to the pushing node -/
        let j := t.size
        let child : Node := { t.node a with parent := some i, children := [], memberChildren := [] }
        .ok (⟨(t.nodes.set i { t.node i with children := (T, j) :: (t.node i).children }) ++ [child]⟩, j)
      | .ok none => .ok (emplaceNew df t i T)
    else .ok (emplaceNew df t i T)

/-- `svh::scope::push_default<T>`: if a child for `T` exists, the source
executes `*found = BaseTemplate<T>{}` — whole-object assignment from a
default-constructed node, which overwrites the payload and also the
parent pointer, both child maps and `active_member` with their default
values; if no child exists, fall through to `emplace_new` (no ancestor
search). -/
def pushDefault (df : TypeId → List Int) (t : Tree) (i : NodeId) (T : TypeId) :
    Except Err (Tree × NodeId) :=
  match assoc (t.node i).children T with
  | some j =>
    if (t.node j).ty = T then
      .ok (t.setNode j ⟨none, T, df T, [], [], none⟩, j)
    else .error .typeMismatch
  | none => .ok (emplaceNew df t i T)

/-- `svh::scope::_get<T>` (behind `get<T>()`), with the compile-time
policy `SVH_AUTO_INSERT` threaded as `autoInsert`: resolve via `find<T>`;
when nothing is found, either materialize a default-constructed node at
the invoked scope or fail. -/
def getT (df : TypeId → List Int) (autoInsert : Bool) (t : Tree) (i : NodeId) (T : TypeId) :
    Except Err (Tree × NodeId) :=
  match findT t T i none with
  | .error e => .error e
  | .ok (some j) => .ok (t, j)
  | .ok none => if autoInsert then .ok (emplaceNew df t i T) else .error .notFound

/-- `svh::scope::push_member<member>`: reuse the member child when
present; else — when this node has a parent — search with `find_member`
and copy-construct the hit with cleared child maps; else
default-construct.  Either way the created node records the member key as
its `active_member`. -/
def pushMember (df : TypeId → List Int) (t : Tree) (i : NodeId) (k : MemberId) :
    Except Err (Tree × NodeId) :=
  match assoc (t.node i).memberChildren k with
  | some j => if (t.node j).ty = k.memberType then .ok (t, j) else .error .typeMismatch
  | none =>
    let create : Tree × NodeId :=
      let j := t.size
      let child : Node := ⟨some i, k.memberType, df k.memberType, [], [], some k⟩
      (⟨(t.nodes.set i { t.node i with memberChildren := (k, j) :: (t.node i).memberChildren }) ++ [child]⟩, j)
    if (t.node i).parent.isSome then
      match findMember t i k with
      | .error e => .error e
      | .ok (some f) =>
        let j := t.size
        let child : Node :=
          { t.node f with parent := some i, children := [], memberChildren := [], activeMember := some k }
        .ok (⟨(t.nodes.set i { t.node i with memberChildren := (k, j) :: (t.node i).memberChildren }) ++ [child]⟩, j)
      | .ok none => .ok create
    else .ok create

/-- `svh::scope::get_member<member>` (compile-time member pointer, mutable
overload): resolve via `find_member`, else — under the auto-insert policy
— delegate to `push_member`, else fail. -/
def getMemberCT (df : TypeId → List Int) (autoInsert : Bool) (t : Tree) (i : NodeId)
    (k : MemberId) : Except Err (Tree × NodeId) :=
  match findMember t i k with
  | .error e => .error e
  | .ok (some j) => .ok (t, j)
  | .ok none => if autoInsert then pushMember df t i k else .error .notFound

/-- `svh::scope::get_member(instance, member)` (runtime form, mutable
overload): resolve via `find_member_runtime`, else — under the
auto-insert policy — create a fresh default-constructed member child at
the invoked node.  Unlike `push_member`, this creation path leaves the new
node's `active_member` invalid. -/
def getMemberRuntime (df : TypeId → List Int) (autoInsert : Bool) (t : Tree) (i : NodeId)
    (Tty Mty : TypeId) (instAddr size membAddr : Nat) : Except Err (Tree × NodeId) :=
  match findMemberRuntime t i Tty Mty instAddr size membAddr with
  | .error e => .error e
  | .ok (some j) => .ok (t, j)
  | .ok none =>
    if autoInsert then
      let k : MemberId := ⟨Tty, Mty, membAddr - instAddr⟩
      let j := t.size
      let child : Node := ⟨some i, Mty, df Mty, [], [], none⟩
      .ok (⟨(t.nodes.set i { t.node i with memberChildren := (k, j) :: (t.node i).memberChildren }) ++ [child]⟩, j)
    else .error .notFound

/-- The variadic `push<T, U, Rest...>()` chain, as the list of type keys
it descends through: each step is a single `_push` on the node returned
by the previous one (an empty list returns the current node, so a
one-element list is exactly `push<T>()`). -/
def pushList (df : TypeId → List Int) : Tree → NodeId → List TypeId → Except Err (Tree × NodeId)
  | t, i, [] => .ok (t, i)
  | t, i, T :: rest =>
    match pushT df t i T with
    | .error e => .error e
    | .ok (t2, j) => pushList df t2 j rest

/-- The variadic `get<T, U, Rest...>()` chain, one `_get` per type key. -/
def getList (df : TypeId → List Int) (autoInsert : Bool) :
    Tree → NodeId → List TypeId → Except Err (Tree × NodeId)
  | t, i, [] => .ok (t, i)
  | t, i, T :: rest =>
    match getT df autoInsert t i T with
    | .error e => .error e
    | .ok (t2, j) => getList df autoInsert t2 j rest

/-- A fluent field setter on a settings payload (the `min(v)` / `max(v)`
mutators of the test payload types): overwrite one field of one node's
payload and nothing else. -/
def setField (t : Tree) (i : NodeId) (f : Nat) (v : Int) : Tree :=
  t.setNode i { t.node i with payload := (t.node i).payload.set f v }

/-- The one-node tree consisting of a root scope (a default-constructed
`svh::scope<...>` with no parent and no payload of its own). -/
def rootTree : Tree := ⟨[⟨none, 0, [], [], [], none⟩]⟩

/-- A concrete default-payload assignment used by the concrete runs:
every payload type has two integer fields, both `0` by default. -/
def dfZero : TypeId → List Int := fun _ => [0, 0]

/-- Equality of `Except` results is decidable, so concrete runs of the
operations can be checked by evaluation. -/
instance instDecEqExcept {e a : Type} [DecidableEq e] [DecidableEq a] : DecidableEq (Except e a)
  | .ok x, .ok y =>
    if h : x = y then .isTrue (by rw [h]) else .isFalse (by intro hc; cases hc; exact h rfl)
  | .error x, .error y =>
    if h : x = y then .isTrue (by rw [h]) else .isFalse (by intro hc; cases hc; exact h rfl)
  | .ok _, .error _ => .isFalse (by intro hc; cases hc)
  | .error _, .ok _ => .isFalse (by intro hc; cases hc)

/-! ## Arena algebra -/

theorem node_set_append_new (t : Tree) (n : NodeId) (u c : Node) :
    (Tree.mk ((t.nodes.set n u) ++ [c])).node t.size = c := by
  have hl : (t.nodes.set n u).length = t.nodes.length := List.length_set ..
  simp [Tree.node, Tree.size, List.getD_eq_getElem?_getD, List.getElem?_append_right, hl.ge, hl]

theorem node_set_append_at (t : Tree) (n : NodeId) (u c : Node) (hn : n < t.size) :
    (Tree.mk ((t.nodes.set n u) ++ [c])).node n = u := by
  have hn' : n < t.nodes.length := hn
  have hmlt : n < (t.nodes.set n u).length := by rw [List.length_set]; exact hn'
  simp [Tree.node, List.getD_eq_getElem?_getD, List.getElem?_append, hmlt,
    List.getElem?_set_self hn', hn']

theorem node_set_append_other (t : Tree) (n : NodeId) (u c : Node) (m : NodeId)
    (hm : m ≠ n) (hms : m < t.size) :
    (Tree.mk ((t.nodes.set n u) ++ [c])).node m = t.node m := by
  have hms' : m < t.nodes.length := hms
  have hmlt : m < (t.nodes.set n u).length := by rw [List.length_set]; exact hms'
  simp [Tree.node, List.getD_eq_getElem?_getD, List.getElem?_append, hmlt,
    List.getElem?_set_ne (Ne.symm hm), hms']

theorem size_set_append (t : Tree) (n : NodeId) (u c : Node) :
    (Tree.mk ((t.nodes.set n u) ++ [c])).size = t.size + 1 := by
  simp [Tree.size, List.length_set]

theorem node_setNode_at (t : Tree) (i : NodeId) (nd : Node) (h : i < t.size) :
    (t.setNode i nd).node i = nd := by
  have h' : i < t.nodes.length := h
  simp [Tree.setNode, Tree.node, List.getD_eq_getElem?_getD, List.getElem?_set_self h']

theorem node_setNode_other (t : Tree) (i : NodeId) (nd : Node) (m : NodeId) (hm : m ≠ i) :
    (t.setNode i nd).node m = t.node m := by
  simp [Tree.setNode, Tree.node, List.getD_eq_getElem?_getD, List.getElem?_set_ne (Ne.symm hm)]

theorem size_setNode (t : Tree) (i : NodeId) (nd : Node) : (t.setNode i nd).size = t.size := by
  simp [Tree.setNode, Tree.size, List.length_set]

theorem assoc_cons_self {α β : Type} [DecidableEq α] (k : α) (v : β) (r : List (α × β)) :
    assoc ((k, v) :: r) k = some v := by simp [assoc]

/-! ## Dynamic-type facts about the walks -/

/-- Whatever `find<T>` returns has passed its `dynamic_cast`: the node's
dynamic type is the requested `T`. -/
theorem findTA_ty (t : Tree) (T : TypeId) :
    ∀ b i id? a, findTA t T b i id? = .ok (some a) → (t.node a).ty = T := by
  intro b
  induction b with
  | zero => intro i id? a h; simp [findTA] at h
  | succ b ih =>
    intro i id? a h
    simp only [findTA] at h
    cases hm : (match id? with
      | some k => assoc (t.node i).memberChildren k
      | none => assoc (t.node i).children T) with
    | some j =>
      rw [hm] at h
      by_cases hty : (t.node j).ty = T
      · simp [hty] at h; rw [← h]; exact hty
      · simp [hty] at h
    | none =>
      rw [hm] at h
      cases hp : (t.node i).parent with
      | none => rw [hp] at h; simp at h
      | some p =>
        rw [hp] at h
        by_cases hpi : p < i
        · simp only [hpi, if_true] at h
          exact ih p (t.node i).activeMember a h
        · simp [hpi] at h

theorem findT_ty (t : Tree) (T : TypeId) (i : NodeId) (id? : Option MemberId) (a : NodeId)
    (h : findT t T i id? = .ok (some a)) : (t.node a).ty = T :=
  findTA_ty t T (i + 1) i id? a h

/-- Whatever `find_member` returns has dynamic type equal to the member
key's member type. -/
theorem findMemberA_ty (t : Tree) (k : MemberId) :
    ∀ b i a, findMemberA t k b i = .ok (some a) → (t.node a).ty = k.memberType := by
  intro b
  induction b with
  | zero => intro i a h; simp [findMemberA] at h
  | succ b ih =>
    intro i a h
    simp only [findMemberA] at h
    cases hm : assoc (t.node i).memberChildren k with
    | some j =>
      rw [hm] at h
      by_cases hty : (t.node j).ty = k.memberType
      · simp [hty] at h; rw [← h]; exact hty
      · simp [hty] at h
    | none =>
      rw [hm] at h
      cases hb2 : (match assoc (t.node i).children k.structType with
        | some s =>
          if (t.node s).ty = k.structType then findT t k.memberType s (some k)
          else Except.error Err.typeMismatch
        | none => Except.ok none) with
      | error e => rw [hb2] at h; simp at h
      | ok o =>
        rw [hb2] at h
        cases o with
        | some j =>
          simp at h
          subst h
          cases hcs : assoc (t.node i).children k.structType with
          | some s =>
            rw [hcs] at hb2
            by_cases hst : (t.node s).ty = k.structType
            · have hb3 : findT t k.memberType s (some k) = Except.ok (some j) := by
                simpa [hst] using hb2
              exact findT_ty _ _ _ _ _ hb3
            · simp [hst] at hb2
          | none =>
            rw [hcs] at hb2
            simp at hb2
        | none =>
          cases hc : assoc (t.node i).children k.memberType with
          | some ms =>
            rw [hc] at h
            by_cases hty : (t.node ms).ty = k.memberType
            · simp [hty] at h; rw [← h]; exact hty
            · simp [hty] at h
          | none =>
            rw [hc] at h
            cases hp : (t.node i).parent with
            | none => rw [hp] at h; simp at h
            | some p =>
              rw [hp] at h
              by_cases hpi : p < i
              · simp only [hpi, if_true] at h; exact ih p a h
              · simp [hpi] at h

theorem findMember_ty (t : Tree) (i : NodeId) (k : MemberId) (a : NodeId)
    (h : findMember t i k = .ok (some a)) : (t.node a).ty = k.memberType :=
  findMemberA_ty t k (i + 1) i a h

/-! ## C3: idempotent push -/

/-- C3: `push<T>()` is idempotent.  First conjunct (`_push`'s reuse
branch): if a child for `T` already exists under node `n` and passes its
`dynamic_cast`, `push<T>()` returns exactly that child and leaves the
tree untouched.  Second conjunct: after any successful `push<T>()` on
`n`, repeating the call returns the same tree and the same node id — and
since the arena index models `scope*` object identity, the payload
returned by the two calls is reference-identical. -/
theorem C3_push_idempotent (df : TypeId → List Int) (t : Tree) (n : NodeId) (T : TypeId) :
    (∀ j, assoc (t.node n).children T = some j → (t.node j).ty = T →
      pushT df t n T = .ok (t, j)) ∧
    (∀ t2 j, n < t.size → pushT df t n T = .ok (t2, j) → pushT df t2 n T = .ok (t2, j)) := by
  constructor
  · intro j hj hty
    simp [pushT, hj, hty]
  · intro t2 j hn hpush
    cases hj : assoc (t.node n).children T with
    | some j0 =>
      by_cases hty : (t.node j0).ty = T
      · simp [pushT, hj, hty] at hpush
        obtain ⟨h1, h2⟩ := hpush
        subst h1; subst h2
        simp [pushT, hj, hty]
      · simp [pushT, hj, hty] at hpush
    | none =>
      cases hpar : (t.node n).parent.isSome with
      | false =>
        simp only [pushT, hj, hpar, Bool.false_eq_true, if_false] at hpush
        rw [Except.ok.injEq] at hpush
        have ht2 : t2 = (emplaceNew df t n T).1 := (congrArg Prod.fst hpush).symm
        have hjv : j = (emplaceNew df t n T).2 := (congrArg Prod.snd hpush).symm
        subst ht2; subst hjv
        have hcn : ((emplaceNew df t n T).1.node n).children =
            (T, t.size) :: (t.node n).children := by
          rw [show (emplaceNew df t n T).1.node n =
            { t.node n with children := (T, t.size) :: (t.node n).children } from
            node_set_append_at t n _ _ hn]
        have hnew : (emplaceNew df t n T).1.node t.size = ⟨some n, T, df T, [], [], none⟩ :=
          node_set_append_new t n _ _
        have hE2 : (emplaceNew df t n T).2 = t.size := rfl
        simp [pushT, hcn, assoc_cons_self, hnew, hE2]
      | true =>
        cases hfind : findT t T n none with
        | error e => simp [pushT, hj, hpar, hfind] at hpush
        | ok o =>
          cases o with
          | some a =>
            simp only [pushT, hj, hpar, hfind, if_true] at hpush
            rw [Except.ok.injEq] at hpush
            have htyA : (t.node a).ty = T := findT_ty t T n none a hfind
            injection hpush with ht2 hjv
            rw [← ht2, ← hjv]
            simp [pushT, node_set_append_at t n _ _ hn, node_set_append_new t n _ _,
              assoc, htyA]
          | none =>
            simp only [pushT, hj, hpar, hfind, if_true] at hpush
            rw [Except.ok.injEq] at hpush
            have ht2 : t2 = (emplaceNew df t n T).1 := (congrArg Prod.fst hpush).symm
            have hjv : j = (emplaceNew df t n T).2 := (congrArg Prod.snd hpush).symm
            subst ht2; subst hjv
            have hcn : ((emplaceNew df t n T).1.node n).children =
                (T, t.size) :: (t.node n).children := by
              rw [show (emplaceNew df t n T).1.node n =
                { t.node n with children := (T, t.size) :: (t.node n).children } from
                node_set_append_at t n _ _ hn]
            have hnew : (emplaceNew df t n T).1.node t.size = ⟨some n, T, df T, [], [], none⟩ :=
              node_set_append_new t n _ _
            have hE2 : (emplaceNew df t n T).2 = t.size := rfl
            simp [pushT, hcn, assoc_cons_self, hnew, hE2]

/-- Witness for C3 at a concrete input: a root with an `int` child
(`TypeId` 1); pushing `int` twice returns the same node (`1`) and the
same tree both times. -/
theorem C3_push_idempotent_witness :
    pushT (fun _ => [0, 0]) (Tree.mk [⟨none, 0, [], [(1, 1)], [], none⟩,
        ⟨some 0, 1, [-50, 50], [], [], none⟩]) 0 1 =
      .ok (Tree.mk [⟨none, 0, [], [(1, 1)], [], none⟩,
        ⟨some 0, 1, [-50, 50], [], [], none⟩], 1) := by
  exact (C3_push_idempotent (fun _ => [0, 0]) (Tree.mk [⟨none, 0, [], [(1, 1)], [], none⟩,
    ⟨some 0, 1, [-50, 50], [], [], none⟩]) 0 1).1 1 (by decide) (by decide)

/-! ## C2: auto-insert of a default node at an unresolved `get` -/

/-- Builds the C2 counterexample: `push_member` for field `a` of
struct 4 (member type `int`, type id 1, offset 0) on the root; node 1 is
the resulting member node. -/
def c2build : Except Err Tree := do
  let (t1, _) ← pushMember dfZero rootTree 0 ⟨4, 1, 0⟩
  pure t1

/-- The tree `c2build` produces. -/
def c2t : Tree :=
  ⟨[⟨none, 0, [], [], [(⟨4, 1, 0⟩, 1)], none⟩,
    ⟨some 0, 1, [0, 0], [], [], some ⟨4, 1, 0⟩⟩]⟩

/-- Counterexample to C2 as stated: in the API-reachable tree `c2t` no
node for `float` (type id 2) exists on node 1 or any ancestor — every
node's dynamic type differs from 2, no type-keyed map holds key 2 and no
member-map entry has member type 2 — yet `get<float>()` on the member
node 1 fails with the *type-mismatch* error in both auto-insert modes:
the ascent's member-map probe under the inherited active-member key hits
the `int` member node and its `dynamic_cast<BaseTemplate<float>>`
fails.  So with auto-insert enabled no default-constructed node is
materialized at node 1, and with auto-insert disabled the failure is not
the claimed key-not-found error. -/
theorem C2_counterexample :
    c2build = .ok c2t ∧
    (∀ m, m < c2t.size →
      (c2t.node m).ty ≠ 2 ∧
      assoc (c2t.node m).children 2 = none ∧
      (∀ e ∈ (c2t.node m).memberChildren, e.1.memberType ≠ 2)) ∧
    getT dfZero true c2t 1 2 = .error .typeMismatch ∧
    getT dfZero false c2t 1 2 = .error .typeMismatch := by decide

/-- C2 amended: the behavior is gated on the outcome of the code's own
lookup `find<T>`, not on bare non-existence.  First conjunct: when
`find<T>` from `n` completes with a clean "not found" (nothing resolved
and no cast mismatch along the ascent), `get<T>()` with auto-insert
enabled materializes a default-constructed node for `T` directly at `n`
— the node where resolution was invoked: the fresh node carries `T`'s
default-constructed field values, empty child maps and `n` as parent, it
is entered into `n`'s type-keyed child map, every other node is
untouched, and the call returns it; with auto-insert disabled the same
call fails with the key-not-found error and nothing is substituted.
Second conjunct: when `find<T>` instead aborts with an error — which
happens on member-addressed chains even though no node for `T` exists
anywhere (`C2_counterexample`) — `get<T>()` propagates that error in
both modes and never materializes a default. -/
theorem C2_get_auto_insert_amended (df : TypeId → List Int) (t : Tree) (n : NodeId)
    (T : TypeId) :
    (n < t.size → findT t T n none = .ok none →
      (∃ t2, getT df true t n T = .ok (t2, t.size) ∧
        (t2.node t.size).payload = df T ∧
        (t2.node t.size).ty = T ∧
        (t2.node t.size).parent = some n ∧
        (t2.node t.size).children = [] ∧
        (t2.node t.size).memberChildren = [] ∧
        assoc (t2.node n).children T = some t.size ∧
        (∀ m, m ≠ n → m < t.size → t2.node m = t.node m)) ∧
      getT df false t n T = .error .notFound) ∧
    (∀ e, findT t T n none = .error e →
      getT df true t n T = .error e ∧ getT df false t n T = .error e) := by
  constructor
  · intro hn hfind
    constructor
    · have hE : (emplaceNew df t n T).1.node t.size = ⟨some n, T, df T, [], [], none⟩ :=
        node_set_append_new t n _ _
      have hEn : (emplaceNew df t n T).1.node n =
          { t.node n with children := (T, t.size) :: (t.node n).children } :=
        node_set_append_at t n _ _ hn
      refine ⟨(emplaceNew df t n T).1, ?_, ?_, ?_, ?_, ?_, ?_, ?_, ?_⟩
      · simp [getT, hfind]
        rfl
      · rw [hE]
      · rw [hE]
      · rw [hE]
      · rw [hE]
      · rw [hE]
      · rw [hEn]
        exact assoc_cons_self T t.size (t.node n).children
      · intro m hm hms
        exact node_set_append_other t n _ _ m hm hms
    · simp [getT, hfind]
  · intro e hfind
    exact ⟨by simp [getT, hfind], by simp [getT, hfind]⟩

/-- Witness for the amended C2: the clean-miss branch on the bare root
(no `int` node anywhere, auto-insert materializes the default, else
key-not-found), and the erroring branch on `c2t` (the member node whose
`get<float>` aborts with the cast mismatch in both modes). -/
theorem C2_get_auto_insert_amended_witness :
    ((∃ t2, getT dfZero true rootTree 0 1 = .ok (t2, 1) ∧
      (t2.node 1).payload = [0, 0] ∧
      (t2.node 1).ty = 1 ∧
      (t2.node 1).parent = some 0 ∧
      (t2.node 1).children = [] ∧
      (t2.node 1).memberChildren = [] ∧
      assoc (t2.node 0).children 1 = some 1 ∧
      (∀ m, m ≠ 0 → m < 1 → t2.node m = rootTree.node m)) ∧
    getT dfZero false rootTree 0 1 = .error .notFound) ∧
    (getT dfZero true c2t 1 2 = .error .typeMismatch ∧
      getT dfZero false c2t 1 2 = .error .typeMismatch) :=
  ⟨(C2_get_auto_insert_amended dfZero rootTree 0 1).1 (by decide) (by decide),
   (C2_get_auto_insert_amended dfZero c2t 1 2).2 .typeMismatch (by decide)⟩

/-! ## C7: variadic push / get are chained single-type calls -/

theorem pushList_append (df : TypeId → List Int) :
    ∀ (xs ys : List TypeId) (t : Tree) (n : NodeId),
      pushList df t n (xs ++ ys) =
        (match pushList df t n xs with
          | .error e => .error e
          | .ok (t2, j) => pushList df t2 j ys) := by
  intro xs
  induction xs with
  | nil => intro ys t n; simp [pushList]
  | cons T rest ih =>
    intro ys t n
    simp only [List.cons_append, pushList]
    cases pushT df t n T with
    | error e => rfl
    | ok p => exact ih ys p.1 p.2

theorem getList_append (df : TypeId → List Int) (ai : Bool) :
    ∀ (xs ys : List TypeId) (t : Tree) (n : NodeId),
      getList df ai t n (xs ++ ys) =
        (match getList df ai t n xs with
          | .error e => .error e
          | .ok (t2, j) => getList df ai t2 j ys) := by
  intro xs
  induction xs with
  | nil => intro ys t n; simp [getList]
  | cons T rest ih =>
    intro ys t n
    simp only [List.cons_append, getList]
    cases getT df ai t n T with
    | error e => rfl
    | ok p => exact ih ys p.1 p.2

/-- C7: the variadic forms compose out of single-type calls.  Descending
through `xs ++ ys` in one variadic `push` (resp. `get`) produces exactly
the same tree state and returns exactly the same node as first descending
through `xs` and then calling the variadic form for `ys` on the result —
with `xs = [T]` this is literally
`push<T, U, Rest...>() = push<T>().push<U, Rest...>()` and
`get<T, U, Rest...>() = get<T>().get<U, Rest...>()`, each step running
the same `_push`/`_get` with the same ancestor search and the same
auto-insert policy `ai`. -/
theorem C7_variadic_is_chained_singles (df : TypeId → List Int) (ai : Bool)
    (xs ys : List TypeId) (t : Tree) (n : NodeId) :
    (pushList df t n (xs ++ ys) =
      (match pushList df t n xs with
        | .error e => .error e
        | .ok (t2, j) => pushList df t2 j ys)) ∧
    (getList df ai t n (xs ++ ys) =
      (match getList df ai t n xs with
        | .error e => .error e
        | .ok (t2, j) => getList df ai t2 j ys)) :=
  ⟨pushList_append df xs ys t n, getList_append df ai xs ys t n⟩

/-! ## C4: what `push_default` really does to an existing child

The source's reset branch executes `*found = BaseTemplate<T>{}`, a C++
whole-object copy assignment from a default-constructed node.  The
implicitly generated assignment operator assigns every member of the
`scope` base as well, so besides resetting the payload it also empties
both child maps, nulls the parent pointer and invalidates
`active_member`.  The children of the existing node are therefore *not*
preserved, contrary to the claim. -/

/-- Builds the C4 counterexample tree: `root.push<int>().push<float>()`
(type ids 1 and 2), so the `int` child of the root has a nonempty child
map. -/
def c4build : Except Err Tree := do
  let (t1, a) ← pushT dfZero rootTree 0 1
  let (t2, _) ← pushT dfZero t1 a 2
  pure t2

/-- The tree `c4build` produces. -/
def c4t : Tree :=
  ⟨[⟨none, 0, [], [(1, 1)], [], none⟩,
    ⟨some 0, 1, [0, 0], [(2, 2)], [], none⟩,
    ⟨some 1, 2, [0, 0], [], [], none⟩]⟩

/-- The tree after `push_default<int>()` on the root of `c4t`. -/
def c4t' : Tree :=
  ⟨[⟨none, 0, [], [(1, 1)], [], none⟩,
    ⟨none, 1, [0, 0], [], [], none⟩,
    ⟨some 1, 2, [0, 0], [], [], none⟩]⟩

/-- Counterexample to C4 as stated: in the API-reachable tree `c4t`
(root with an `int` child that itself has a `float` child),
`push_default<int>()` on the root resets the existing `int` child, but
the child's type-keyed children are *not* preserved unchanged — the map
`[(2, 2)]` becomes `[]` (and the parent pointer is nulled as well). -/
theorem C4_counterexample :
    c4build = .ok c4t ∧
    pushDefault dfZero c4t 0 1 = .ok (c4t', 1) ∧
    (c4t.node 1).children = [(2, 2)] ∧
    (c4t'.node 1).children = [] ∧
    (c4t.node 1).parent = some 0 ∧
    (c4t'.node 1).parent = none := by decide

/-- C4 amended: `push_default<T>()` with an existing child `j` resets the
*whole* node object in place to a default-constructed one — default
payload, empty child maps, null parent, invalid `active_member` — while
keeping the node's identity and map entry (same id returned, every other
node untouched, no node added or removed); it never copies from an
ancestor.  With no existing child it default-constructs a fresh child
under `n` with `T`'s default field values, again without consulting any
ancestor. -/
theorem C4_push_default_amended (df : TypeId → List Int) (t : Tree) (n : NodeId) (T : TypeId) :
    (∀ j, assoc (t.node n).children T = some j → (t.node j).ty = T → j < t.size →
      ∃ t2, pushDefault df t n T = .ok (t2, j) ∧
        t2.node j = ⟨none, T, df T, [], [], none⟩ ∧
        (∀ m, m ≠ j → t2.node m = t.node m) ∧
        t2.size = t.size) ∧
    (assoc (t.node n).children T = none → n < t.size →
      ∃ t2, pushDefault df t n T = .ok (t2, t.size) ∧
        (t2.node t.size).payload = df T ∧
        (t2.node t.size).ty = T ∧
        (t2.node t.size).parent = some n ∧
        (t2.node t.size).children = [] ∧
        (t2.node t.size).memberChildren = [] ∧
        assoc (t2.node n).children T = some t.size ∧
        (∀ m, m ≠ n → m < t.size → t2.node m = t.node m)) := by
  constructor
  · intro j hj hty hjs
    refine ⟨t.setNode j ⟨none, T, df T, [], [], none⟩, ?_, ?_, ?_, ?_⟩
    · simp [pushDefault, hj, hty]
    · exact node_setNode_at t j _ hjs
    · intro m hm
      exact node_setNode_other t j _ m hm
    · exact size_setNode t j _
  · intro hj hn
    have hE : (emplaceNew df t n T).1.node t.size = ⟨some n, T, df T, [], [], none⟩ :=
      node_set_append_new t n _ _
    have hEn : (emplaceNew df t n T).1.node n =
        { t.node n with children := (T, t.size) :: (t.node n).children } :=
      node_set_append_at t n _ _ hn
    refine ⟨(emplaceNew df t n T).1, ?_, ?_, ?_, ?_, ?_, ?_, ?_, ?_⟩
    · simp [pushDefault, hj]
      rfl
    · rw [hE]
    · rw [hE]
    · rw [hE]
    · rw [hE]
    · rw [hE]
    · rw [hEn]
      exact assoc_cons_self T t.size (t.node n).children
    · intro m hm hms
      exact node_set_append_other t n _ _ m hm hms

/-- Witness for the amended C4, both branches at concrete inputs: the
reset branch on `c4t` (existing `int` child with its own child) and the
create branch on the bare root. -/
theorem C4_push_default_amended_witness :
    (∃ t2, pushDefault dfZero c4t 0 1 = .ok (t2, 1) ∧
      t2.node 1 = ⟨none, 1, [0, 0], [], [], none⟩ ∧
      (∀ m, m ≠ 1 → t2.node m = c4t.node m) ∧
      t2.size = c4t.size) ∧
    (∃ t2, pushDefault dfZero rootTree 0 3 = .ok (t2, 1) ∧
      (t2.node 1).payload = [0, 0] ∧
      (t2.node 1).ty = 3 ∧
      (t2.node 1).parent = some 0 ∧
      (t2.node 1).children = [] ∧
      (t2.node 1).memberChildren = [] ∧
      assoc (t2.node 0).children 3 = some 1 ∧
      (∀ m, m ≠ 0 → m < 1 → t2.node m = rootTree.node m)) :=
  ⟨(C4_push_default_amended dfZero c4t 0 1).1 1 (by decide) (by decide) (by decide),
   (C4_push_default_amended dfZero rootTree 0 3).2 (by decide) (by decide)⟩

/-! ## C9: runtime member addressing validates the field address -/

/-- `find<T>` can fail only with a cast mismatch, never with the
addressing error. -/
theorem findTA_no_oob (t : Tree) (T : TypeId) :
    ∀ b i id?, findTA t T b i id? ≠ .error .outOfBounds := by
  intro b
  induction b with
  | zero => intro i id? h; simp [findTA] at h
  | succ b ih =>
    intro i id? h
    simp only [findTA] at h
    cases hm : (match id? with
      | some k => assoc (t.node i).memberChildren k
      | none => assoc (t.node i).children T) with
    | some j =>
      rw [hm] at h
      by_cases hty : (t.node j).ty = T
      · simp [hty] at h
      · simp [hty] at h
    | none =>
      rw [hm] at h
      cases hp : (t.node i).parent with
      | none => rw [hp] at h; simp at h
      | some p =>
        rw [hp] at h
        by_cases hpi : p < i
        · simp only [hpi, if_true] at h
          exact ih p (t.node i).activeMember h
        · simp [hpi] at h

/-- With the field address inside the instance's byte range,
`find_member_runtime` never raises the addressing error at any level of
its ascent (it re-checks the same addresses at each ancestor). -/
theorem findMemberRuntimeA_inrange_no_oob (t : Tree) (Tty Mty : TypeId)
    (instAddr size membAddr : Nat)
    (hin : ¬(membAddr < instAddr ∨ instAddr + size ≤ membAddr)) :
    ∀ b i, findMemberRuntimeA t Tty Mty instAddr size membAddr b i ≠ .error .outOfBounds := by
  intro b
  induction b with
  | zero => intro i h; simp [findMemberRuntimeA] at h
  | succ b ih =>
    intro i h
    simp only [findMemberRuntimeA, hin, if_false] at h
    cases hm : assoc (t.node i).memberChildren ⟨Tty, Mty, membAddr - instAddr⟩ with
    | some j =>
      rw [hm] at h
      by_cases hty : (t.node j).ty = Mty
      · simp [hty] at h
      · simp [hty] at h
    | none =>
      rw [hm] at h
      cases hb2 : (match assoc (t.node i).children Tty with
        | some s => if (t.node s).ty = Tty then findT t Mty s none else Except.error Err.typeMismatch
        | none => Except.ok none) with
      | error e =>
        rw [hb2] at h
        have he : e ≠ Err.outOfBounds := by
          cases hcs : assoc (t.node i).children Tty with
          | some s =>
            rw [hcs] at hb2
            by_cases hst : (t.node s).ty = Tty
            · have hb3 : findT t Mty s none = Except.error e := by simpa [hst] using hb2
              intro hee
              subst hee
              exact findTA_no_oob t Mty (s + 1) s none hb3
            · have he2 : Err.typeMismatch = e := by simpa [hst] using hb2
              intro hee
              subst hee
              simp at he2
          | none =>
            rw [hcs] at hb2
            simp at hb2
        simp at h
        exact he h
      | ok o =>
        rw [hb2] at h
        cases o with
        | some j => simp at h
        | none =>
          cases hp : (t.node i).parent with
          | none => rw [hp] at h; simp at h
          | some p =>
            rw [hp] at h
            by_cases hpi : p < i
            · simp only [hpi, if_true] at h
              exact ih p h
            · simp [hpi] at h

/-- C9: every runtime member-addressing operation validates that the
supplied field reference lies inside the supplied instance's byte range
`[instAddr, instAddr + size)`.  If it does not, both
`find_member_runtime` and the runtime `get_member` fail immediately with
the addressing error — the lookup aborts before touching any map, and in
this model an erroring operation returns no tree at all, so no node is
created or modified.  If the address is in range, neither operation ever
raises the addressing error (its other failure modes are cast mismatches
or key-not-found). -/
theorem C9_runtime_bounds_checked (df : TypeId → List Int) (ai : Bool) (t : Tree) (i : NodeId)
    (Tty Mty : TypeId) (instAddr size membAddr : Nat) :
    ((membAddr < instAddr ∨ instAddr + size ≤ membAddr) →
      findMemberRuntime t i Tty Mty instAddr size membAddr = .error .outOfBounds ∧
      getMemberRuntime df ai t i Tty Mty instAddr size membAddr = .error .outOfBounds) ∧
    (instAddr ≤ membAddr → membAddr < instAddr + size →
      findMemberRuntime t i Tty Mty instAddr size membAddr ≠ .error .outOfBounds ∧
      getMemberRuntime df ai t i Tty Mty instAddr size membAddr ≠ .error .outOfBounds) := by
  constructor
  · intro hout
    have hf : findMemberRuntime t i Tty Mty instAddr size membAddr = .error .outOfBounds := by
      show findMemberRuntimeA t Tty Mty instAddr size membAddr (i + 1) i = _
      simp [findMemberRuntimeA, hout]
    exact ⟨hf, by simp [getMemberRuntime, hf]⟩
  · intro h1 h2
    have hin : ¬(membAddr < instAddr ∨ instAddr + size ≤ membAddr) := by
      push_neg
      exact ⟨h1, h2⟩
    have hf : findMemberRuntime t i Tty Mty instAddr size membAddr ≠ .error .outOfBounds :=
      findMemberRuntimeA_inrange_no_oob t Tty Mty instAddr size membAddr hin (i + 1) i
    refine ⟨hf, ?_⟩
    intro hg
    rw [getMemberRuntime] at hg
    cases hfr : findMemberRuntime t i Tty Mty instAddr size membAddr with
    | error e =>
      rw [hfr] at hg
      simp at hg
      exact hf (by rw [hfr, hg])
    | ok o =>
      rw [hfr] at hg
      cases o with
      | some j => simp at hg
      | none =>
        by_cases hai : ai = true
        · simp [hai] at hg
        · simp [Bool.not_eq_true] at hai
          simp [hai] at hg

/-- Witness for C9 at concrete inputs: an instance at address 100 of
size 8; field address 200 is rejected by both runtime operations, field
address 104 never yields the addressing error. -/
theorem C9_runtime_bounds_checked_witness :
    ((200 < 100 ∨ 100 + 8 ≤ 200) →
      findMemberRuntime rootTree 0 4 1 100 8 200 = .error .outOfBounds ∧
      getMemberRuntime dfZero true rootTree 0 4 1 100 8 200 = .error .outOfBounds) ∧
    ((100 ≤ 104 → 104 < 100 + 8 →
      findMemberRuntime rootTree 0 4 1 100 8 104 ≠ .error .outOfBounds ∧
      getMemberRuntime dfZero true rootTree 0 4 1 100 8 104 ≠ .error .outOfBounds)) :=
  ⟨(C9_runtime_bounds_checked dfZero true rootTree 0 4 1 100 8 200).1,
   (C9_runtime_bounds_checked dfZero true rootTree 0 4 1 100 8 104).2⟩

/-! ## C10: member-addressed nodes and the `active_member` ascent -/

/-- C10: (first conjunct) a node created by `push_member` — whenever no
member child for the key existed yet, so the reuse branch is skipped —
records the member key `k` as its own `active_member`, has the key's
member type as its dynamic type, and hangs under the pushing node's
member map at `k`.  (Second conjunct) in any tree where node `m` is such
a member-addressed node under its parent `p` (active member `k`,
registered in `p`'s member map under `k`) and `m` has no type-keyed child
for its member type `M`, a `find<M>()` started at `m` ascends into `p`
carrying `k` and probes `p`'s *member map* under `k` — never `p`'s
type-keyed children, whatever they contain — so it resolves to `m`
itself; consequently `push<M>()` on `m` copy-constructs the new child
from `m`'s own field-specific payload (not from any generic type-keyed
`M` elsewhere in the tree). -/
theorem C10_member_node_self_inheritance (df : TypeId → List Int) :
    (∀ (t : Tree) (p : NodeId) (k : MemberId) (t2 : Tree) (m : NodeId),
      p < t.size →
      assoc (t.node p).memberChildren k = none →
      pushMember df t p k = .ok (t2, m) →
      m = t.size ∧
      (t2.node m).activeMember = some k ∧
      (t2.node m).ty = k.memberType ∧
      (t2.node m).parent = some p ∧
      assoc (t2.node p).memberChildren k = some m) ∧
    (∀ (t : Tree) (m p : NodeId) (M : TypeId) (k : MemberId),
      k.memberType = M →
      (t.node m).parent = some p →
      p < m →
      m < t.size →
      (t.node m).activeMember = some k →
      assoc (t.node p).memberChildren k = some m →
      (t.node m).ty = M →
      assoc (t.node m).children M = none →
      findT t M m none = .ok (some m) ∧
      ∃ t2, pushT df t m M = .ok (t2, t.size) ∧
        (t2.node t.size).payload = (t.node m).payload ∧
        (t2.node t.size).parent = some m ∧
        assoc (t2.node m).children M = some t.size) := by
  constructor
  · intro t p k t2 m hp hma hpush
    cases hpar : (t.node p).parent.isSome with
    | false =>
      simp only [pushMember, hma, hpar, Bool.false_eq_true, if_false] at hpush
      rw [Except.ok.injEq] at hpush
      injection hpush with ht2 hm
      subst hm
      rw [← ht2]
      refine ⟨rfl, ?_, ?_, ?_, ?_⟩
      · rw [node_set_append_new t p _ _]
      · rw [node_set_append_new t p _ _]
      · rw [node_set_append_new t p _ _]
      · rw [node_set_append_at t p _ _ hp]
        exact assoc_cons_self k t.size (t.node p).memberChildren
    | true =>
      cases hfind : findMember t p k with
      | error e => simp [pushMember, hma, hpar, hfind] at hpush
      | ok o =>
        cases o with
        | some f =>
          simp only [pushMember, hma, hpar, hfind, if_true] at hpush
          rw [Except.ok.injEq] at hpush
          injection hpush with ht2 hm
          subst hm
          rw [← ht2]
          have htyF : (t.node f).ty = k.memberType := findMember_ty t p k f hfind
          refine ⟨rfl, ?_, ?_, ?_, ?_⟩
          · rw [node_set_append_new t p _ _]
          · rw [node_set_append_new t p _ _]
            exact htyF
          · rw [node_set_append_new t p _ _]
          · rw [node_set_append_at t p _ _ hp]
            exact assoc_cons_self k t.size (t.node p).memberChildren
        | none =>
          simp only [pushMember, hma, hpar, hfind, if_true] at hpush
          rw [Except.ok.injEq] at hpush
          injection hpush with ht2 hm
          subst hm
          rw [← ht2]
          refine ⟨rfl, ?_, ?_, ?_, ?_⟩
          · rw [node_set_append_new t p _ _]
          · rw [node_set_append_new t p _ _]
          · rw [node_set_append_new t p _ _]
          · rw [node_set_append_at t p _ _ hp]
            exact assoc_cons_self k t.size (t.node p).memberChildren
  · intro t m p M k hk hparent hpm hms hactive hassoc hty hchild
    have hfind : findT t M m none = .ok (some m) := by
      rw [findT_eq]
      simp only [hchild, hparent, hpm, if_true, hactive]
      rw [findT_eq]
      simp only [hassoc, hty, if_true]
    refine ⟨hfind, ?_⟩
    have hpar : (t.node m).parent.isSome = true := by rw [hparent]; rfl
    refine ⟨Tree.mk ((t.nodes.set m
      { t.node m with children := (M, t.size) :: (t.node m).children }) ++
      [{ t.node m with parent := some m, children := [], memberChildren := [] }]), ?_, ?_, ?_, ?_⟩
    · simp only [pushT, hchild, hpar, hfind, if_true]
    · rw [node_set_append_new t m _ _]
    · rw [node_set_append_new t m _ _]
    · rw [node_set_append_at t m _ _ hms]
      exact assoc_cons_self M t.size (t.node m).children

/-- The C10 witness tree, mirroring `TEST(Default, member_push)`:
root (0) → `TestStruct` node (1, type id 4) → member node (2) for the
key (struct 4, member type 1, offset 0) with overridden payload. -/
def c10t : Tree :=
  ⟨[⟨none, 0, [], [(4, 1)], [], none⟩,
    ⟨some 0, 4, [0, 0], [], [(⟨4, 1, 0⟩, 2)], none⟩,
    ⟨some 1, 1, [0, 10], [], [], some ⟨4, 1, 0⟩⟩]⟩

/-- `c10t` after `push_member` for the sibling key (offset 4) on node 1. -/
def c10t2A : Tree :=
  ⟨[⟨none, 0, [], [(4, 1)], [], none⟩,
    ⟨some 0, 4, [0, 0], [], [(⟨4, 1, 4⟩, 3), (⟨4, 1, 0⟩, 2)], none⟩,
    ⟨some 1, 1, [0, 10], [], [], some ⟨4, 1, 0⟩⟩,
    ⟨some 1, 1, [0, 0], [], [], some ⟨4, 1, 4⟩⟩]⟩

/-- Witness for C10 at `c10t`: `push_member` on node 1 for the offset-4
key produces node 3 with that key as active member; and on the
member-addressed node 2, `find<int>` resolves to node 2 itself, so
`push<int>` copies node 2's own payload `[0, 10]`. -/
theorem C10_member_node_self_inheritance_witness :
    ((3 : NodeId) = c10t.size ∧
      (c10t2A.node 3).activeMember = some ⟨4, 1, 4⟩ ∧
      (c10t2A.node 3).ty = 1 ∧
      (c10t2A.node 3).parent = some 1 ∧
      assoc (c10t2A.node 1).memberChildren ⟨4, 1, 4⟩ = some 3) ∧
    (findT c10t 1 2 none = .ok (some 2) ∧
      ∃ t2, pushT dfZero c10t 2 1 = .ok (t2, 3) ∧
        (t2.node 3).payload = (c10t.node 2).payload ∧
        (t2.node 3).parent = some 2 ∧
        assoc (t2.node 2).children 1 = some 3) :=
  ⟨(C10_member_node_self_inheritance dfZero).1 c10t 1 ⟨4, 1, 4⟩ c10t2A 3
      (by decide) (by decide) (by decide),
   (C10_member_node_self_inheritance dfZero).2 c10t 2 1 1 ⟨4, 1, 0⟩
      (by decide) (by decide) (by decide) (by decide) (by decide) (by decide) (by decide) (by decide)⟩

/-! ## C1: push inherits by copy from the nearest ancestor -/

/-- The first node along `n`'s ancestor chain (including `n` itself) that
owns a type-keyed child for `T` — the claim's "nearest ancestor holding a
node for T" once `n` itself holds none. -/
def nearestHolderNode (t : Tree) (n : NodeId) (T : TypeId) : Option NodeId :=
  (chain t n).find? (fun m => (assoc (t.node m).children T).isSome)

/-- The `T`-child owned by the nearest holder: the node `push` copies
from. -/
def nearestHolder (t : Tree) (n : NodeId) (T : TypeId) : Option NodeId :=
  match nearestHolderNode t n T with
  | some m => assoc (t.node m).children T
  | none => none

/-- On a chain of plain type-keyed nodes (no `active_member` anywhere on
it), `find<T>` returns exactly the nearest holder's `T`-child. -/
theorem findT_plain_chain (t : Tree) (T : TypeId) :
    ∀ n, (∀ m ∈ chain t n, (t.node m).activeMember = none) →
      (∀ a, nearestHolder t n T = some a → (t.node a).ty = T) →
      findT t T n none = .ok (nearestHolder t n T) := by
  intro n
  induction n using Nat.strong_induction_on with
  | _ n ih =>
    intro hplain hty
    rw [findT_eq]
    cases hc : assoc (t.node n).children T with
    | some j =>
      have hnear : nearestHolder t n T = some j := by
        unfold nearestHolder nearestHolderNode
        rw [chain_eq]
        rw [List.find?_cons_of_pos _ (by simp [hc])]
        simp [hc]
      rw [hnear]
      simp [hty j hnear]
    | none =>
      have hmem : n ∈ chain t n := by rw [chain_eq]; exact List.mem_cons_self n _
      have hfirst : nearestHolderNode t n T =
          (match (t.node n).parent with
            | some p => if p < n then chain t p else []
            | none => ([] : List NodeId)).find? (fun m => (assoc (t.node m).children T).isSome) := by
        unfold nearestHolderNode
        rw [chain_eq]
        rw [List.find?_cons_of_neg _ (by simp [hc])]
      cases hp : (t.node n).parent with
      | none =>
        simp only [hp] at hfirst
        have hnone : nearestHolder t n T = none := by
          unfold nearestHolder
          rw [hfirst]
          simp
        rw [hnone]
      | some p =>
        simp only [hp] at hfirst
        by_cases hpn : p < n
        · rw [if_pos hpn] at hfirst
          have hfirst2 : nearestHolderNode t n T = nearestHolderNode t p T := hfirst
          have hact : (t.node n).activeMember = none := hplain n hmem
          have hchainsub : ∀ m, m ∈ chain t p → m ∈ chain t n := by
            intro m hm
            rw [chain_eq]
            simp only [hp, hpn, if_true]
            exact List.mem_cons_of_mem n hm
          have hnear_eq : nearestHolder t n T = nearestHolder t p T := by
            unfold nearestHolder
            rw [hfirst2]
          have hih := ih p hpn
            (fun m hm => hplain m (hchainsub m hm))
            (fun a ha => hty a (by rw [hnear_eq]; exact ha))
          simp only [hpn, if_true, hact]
          rw [hih, hnear_eq]
        · rw [if_neg hpn] at hfirst
          have hnone2 : nearestHolder t n T = none := by
            unfold nearestHolder
            rw [hfirst]
            simp
          rw [hnone2]
          simp [hpn]

/-- Builds the C1 counterexample: `root.push<int>().min(-50).max(50)`,
then `push_member` for field `a` of struct 4 (member type `int`, type
id 1, offset 0) on the root.  The member node (id 2) has no `int` child,
and the root — its only ancestor — holds the type-keyed `int` node 1
with payload `[-50, 50]`. -/
def c1build : Except Err Tree := do
  let (t1, a) ← pushT dfZero rootTree 0 1
  let t1b := setField (setField t1 a 0 (-50)) a 1 50
  let (t2, _) ← pushMember dfZero t1b 0 ⟨4, 1, 0⟩
  pure t2

/-- The tree `c1build` produces. -/
def c1t : Tree :=
  ⟨[⟨none, 0, [], [(1, 1)], [(⟨4, 1, 0⟩, 2)], none⟩,
    ⟨some 0, 1, [-50, 50], [], [], none⟩,
    ⟨some 0, 1, [0, 0], [], [], some ⟨4, 1, 0⟩⟩]⟩

/-- `c1t` after `push<int>()` on the member node 2. -/
def c1t2 : Tree :=
  ⟨[⟨none, 0, [], [(1, 1)], [(⟨4, 1, 0⟩, 2)], none⟩,
    ⟨some 0, 1, [-50, 50], [], [], none⟩,
    ⟨some 0, 1, [0, 0], [(1, 3)], [], some ⟨4, 1, 0⟩⟩,
    ⟨some 2, 1, [0, 0], [], [], some ⟨4, 1, 0⟩⟩]⟩

/-- Counterexample to C1 as stated: in the API-reachable tree `c1t`,
node 2 has no child for `int` and the nearest (and only) ancestor
holding a node for `int` is the root, whose type-keyed `int` child is
node 1 with payload `[-50, 50]`; but `push<int>()` on node 2 creates
node 3 with payload `[0, 0]` — node 2's *own* payload, because the
active-member ascent resolves the member node itself through the root's
member map — so the new child's field values do not equal the nearest
ancestor's. -/
theorem C1_counterexample :
    c1build = .ok c1t ∧
    assoc (c1t.node 2).children 1 = none ∧
    (c1t.node 2).parent = some 0 ∧
    assoc (c1t.node 0).children 1 = some 1 ∧
    nearestHolder c1t 2 1 = some 1 ∧
    (c1t.node 1).payload = [-50, 50] ∧
    pushT dfZero c1t 2 1 = .ok (c1t2, 3) ∧
    (c1t2.node 3).payload = [0, 0] ∧
    (c1t2.node 3).payload ≠ (c1t.node 1).payload := by decide

/-- C1 amended: `push<T>()` on a node `n` with no `T`-child and a parent
copy-constructs the new child from whatever node the code's `find<T>`
resolves (first conjunct): the new child — the next arena id — carries
that node's payload field values, both child maps cleared, `n` as its
parent, it is attached under `n`'s type-keyed children, every other node
is untouched, and overriding one payload field of it afterwards leaves
every other field equal to the inherited value.  On chains of plain
type-keyed nodes (no member-addressed node on the ancestor chain),
`find<T>` resolves exactly the nearest ancestor's type-keyed `T`-child,
which yields the claim's original reading (second conjunct); on
member-addressed chains the resolved copy source can instead be a member
node reached through the active-member ascent, not the nearest
ancestor's type-keyed node (`C1_counterexample`). -/
theorem C1_push_inheritance_amended (df : TypeId → List Int) :
    (∀ (t : Tree) (n : NodeId) (T : TypeId) (a : NodeId),
      assoc (t.node n).children T = none →
      (t.node n).parent.isSome = true →
      findT t T n none = .ok (some a) →
      n < t.size →
      ∃ t2, pushT df t n T = .ok (t2, t.size) ∧
        (t2.node t.size).payload = (t.node a).payload ∧
        (t2.node t.size).children = [] ∧
        (t2.node t.size).memberChildren = [] ∧
        (t2.node t.size).parent = some n ∧
        assoc (t2.node n).children T = some t.size ∧
        (∀ m, m ≠ n → m < t.size → t2.node m = t.node m) ∧
        (∀ fi v fj, fj ≠ fi →
          (((setField t2 t.size fi v).node t.size).payload)[fj]? = ((t.node a).payload)[fj]?) ∧
        (∀ fi v m, m ≠ t.size → (setField t2 t.size fi v).node m = t2.node m)) ∧
    (∀ (t : Tree) (n : NodeId) (T : TypeId),
      (∀ m ∈ chain t n, (t.node m).activeMember = none) →
      (∀ a, nearestHolder t n T = some a → (t.node a).ty = T) →
      findT t T n none = .ok (nearestHolder t n T)) := by
  constructor
  · intro t n T a hn hp hfind hns
    have hnew := node_set_append_new t n
      { t.node n with children := (T, t.size) :: (t.node n).children }
      { t.node a with parent := some n, children := [], memberChildren := [] }
    have hat := node_set_append_at t n
      { t.node n with children := (T, t.size) :: (t.node n).children }
      { t.node a with parent := some n, children := [], memberChildren := [] } hns
    refine ⟨Tree.mk ((t.nodes.set n
        { t.node n with children := (T, t.size) :: (t.node n).children }) ++
        [{ t.node a with parent := some n, children := [], memberChildren := [] }]),
      ?_, ?_, ?_, ?_, ?_, ?_, ?_, ?_, ?_⟩
    · simp only [pushT, hn, hp, hfind, if_true]
    · rw [hnew]
    · rw [hnew]
    · rw [hnew]
    · rw [hnew]
    · rw [hat]
      exact assoc_cons_self T t.size (t.node n).children
    · intro m hm hms
      exact node_set_append_other t n _ _ m hm hms
    · intro fi v fj hfj
      have hsz : t.size < (Tree.mk ((t.nodes.set n
          { t.node n with children := (T, t.size) :: (t.node n).children }) ++
          [{ t.node a with parent := some n, children := [], memberChildren := [] }])).size := by
        rw [size_set_append]
        exact Nat.lt_succ_self _
      simp only [setField]
      rw [node_setNode_at _ t.size _ hsz]
      simp only [hnew]
      exact List.getElem?_set_ne (Ne.symm hfj)
    · intro fi v m hm
      exact node_setNode_other _ t.size _ m hm
  · intro t n T hplain hty
    exact findT_plain_chain t T n hplain hty

/-- The C1 witness tree, mirroring `TEST(Default, overides)`: root with
an `int` child (id 1, payload `[-50, 50]`) and a `MyStruct` child
(id 2), all plain type-keyed nodes. -/
def c1wt : Tree :=
  ⟨[⟨none, 0, [], [(1, 1), (3, 2)], [], none⟩,
    ⟨some 0, 1, [-50, 50], [], [], none⟩,
    ⟨some 0, 3, [0, 0], [], [], none⟩]⟩

/-- Witness for the amended C1 at `c1wt`: `find<int>` from node 2
resolves the nearest holder's child (node 1), `push<int>` under node 2
copies its payload, and overriding field 1 to 20 leaves field 0 at the
inherited −50. -/
theorem C1_push_inheritance_amended_witness :
    (∃ t2, pushT dfZero c1wt 2 1 = .ok (t2, 3) ∧
      (t2.node 3).payload = [-50, 50] ∧
      (t2.node 3).children = [] ∧
      (t2.node 3).memberChildren = [] ∧
      (t2.node 3).parent = some 2 ∧
      assoc (t2.node 2).children 1 = some 3 ∧
      (((setField t2 3 1 20).node 3).payload)[0]? = some (-50)) ∧
    findT c1wt 1 2 none = .ok (nearestHolder c1wt 2 1) := by
  constructor
  · obtain ⟨t2, h1, h2, h3, h4, h5, h6, _, h8, _⟩ :=
      (C1_push_inheritance_amended dfZero).1 c1wt 2 1 1
        (by decide) (by decide) (by decide) (by decide)
    refine ⟨t2, h1, h2, h3, h4, h5, h6, ?_⟩
    have h9 := h8 1 20 0 (by decide)
    simpa using h9
  · exact (C1_push_inheritance_amended dfZero).2 c1wt 2 1 (by decide) (by decide)

/-! ## C6: member keys and field disambiguation -/

theorem assoc_cons_ne {α β : Type} [DecidableEq α] (k' k : α) (v : β) (r : List (α × β))
    (h : k' ≠ k) : assoc ((k', v) :: r) k = assoc r k := by simp [assoc, h]

/-- Two trees with the same node shapes (same parents, dynamic types,
child maps and active members everywhere — payloads may differ). -/
def sameShape (t t' : Tree) : Prop :=
  ∀ i, (t.node i).parent = (t'.node i).parent ∧
    (t.node i).ty = (t'.node i).ty ∧
    (t.node i).children = (t'.node i).children ∧
    (t.node i).memberChildren = (t'.node i).memberChildren ∧
    (t.node i).activeMember = (t'.node i).activeMember

/-- The non-mutating walks never read payloads: `find<T>` agrees on
same-shaped trees. -/
theorem findTA_shape (t t' : Tree) (h : sameShape t t') (T : TypeId) :
    ∀ b i id?, findTA t T b i id? = findTA t' T b i id? := by
  intro b
  induction b with
  | zero => intro i id?; rfl
  | succ b ih =>
    intro i id?
    obtain ⟨hp, _, hc, hmc, ham⟩ := h i
    simp only [findTA, hc, hmc, hp, ham]
    cases hm : (match id? with
      | some k => assoc (t'.node i).memberChildren k
      | none => assoc (t'.node i).children T) with
    | some j =>
      obtain ⟨_, htyj, _, _, _⟩ := h j
      by_cases hty : (t'.node j).ty = T
      · simp [htyj, hty]
      · simp [htyj, hty]
    | none =>
      cases (t'.node i).parent with
      | none => rfl
      | some p =>
        by_cases hpi : p < i
        · simp only [hpi, if_true]
          exact ih p (t'.node i).activeMember
        · simp [hpi]

/-- `find_member` agrees on same-shaped trees. -/
theorem findMemberA_shape (t t' : Tree) (h : sameShape t t') (k : MemberId) :
    ∀ b i, findMemberA t k b i = findMemberA t' k b i := by
  intro b
  induction b with
  | zero => intro i; rfl
  | succ b ih =>
    intro i
    obtain ⟨hp, _, hc, hmc, _⟩ := h i
    simp only [findMemberA, hc, hmc, hp]
    cases hm : assoc (t'.node i).memberChildren k with
    | some j =>
      obtain ⟨_, htyj, _, _, _⟩ := h j
      by_cases hty : (t'.node j).ty = k.memberType
      · simp [htyj, hty]
      · simp [htyj, hty]
    | none =>
      have hafterB : (match assoc (t'.node i).children k.structType with
          | some s =>
            if (t.node s).ty = k.structType then findT t k.memberType s (some k)
            else Except.error Err.typeMismatch
          | none => Except.ok none) =
          (match assoc (t'.node i).children k.structType with
          | some s =>
            if (t'.node s).ty = k.structType then findT t' k.memberType s (some k)
            else Except.error Err.typeMismatch
          | none => Except.ok none) := by
        cases hcs : assoc (t'.node i).children k.structType with
        | some s =>
          obtain ⟨_, htys, _, _, _⟩ := h s
          by_cases hst : (t'.node s).ty = k.structType
          · simp only [htys] at *
            simp [hst]
            exact findTA_shape t t' h k.memberType (s + 1) s (some k)
          · simp [htys, hst]
        | none => rfl
      rw [hafterB]
      cases (match assoc (t'.node i).children k.structType with
        | some s =>
          if (t'.node s).ty = k.structType then findT t' k.memberType s (some k)
          else Except.error Err.typeMismatch
        | none => Except.ok none) with
      | error e => rfl
      | ok o =>
        cases o with
        | some j => rfl
        | none =>
          cases hcm : assoc (t'.node i).children k.memberType with
          | some ms =>
            obtain ⟨_, htym, _, _, _⟩ := h ms
            by_cases hty : (t'.node ms).ty = k.memberType
            · simp [htym, hty]
            · simp [htym, hty]
          | none =>
            cases (t'.node i).parent with
            | none => rfl
            | some p =>
              by_cases hpi : p < i
              · simp only [hpi, if_true]
                exact ih p
              · simp [hpi]

/-- `setField` only changes one payload, so it preserves shapes. -/
theorem setField_shape (t : Tree) (j : NodeId) (f : Nat) (v : Int) :
    sameShape (setField t j f v) t := by
  intro i
  by_cases hij : i = j
  · subst hij
    by_cases hjs : i < t.size
    · rw [show (setField t i f v).node i =
        { t.node i with payload := (t.node i).payload.set f v } from node_setNode_at t i _ hjs]
      exact ⟨rfl, rfl, rfl, rfl, rfl⟩
    · have hgone : t.nodes[i]? = none := by
        rw [List.getElem?_eq_none_iff]
        exact Nat.le_of_not_lt hjs
      have hset : (setField t i f v).node i = t.node i := by
        have hjs2 : ¬ i < t.nodes.length := hjs
        unfold setField Tree.setNode Tree.node
        rw [List.getD_eq_getElem?_getD, List.getD_eq_getElem?_getD]
        rw [List.getElem?_set]
        simp [hjs2, hgone]
      rw [hset]
      exact ⟨rfl, rfl, rfl, rfl, rfl⟩
  · have hset : (setField t j f v).node i = t.node i :=
      node_setNode_other t j { t.node j with payload := (t.node j).payload.set f v } i hij
    rw [hset]
    exact ⟨rfl, rfl, rfl, rfl, rfl⟩

/-- The create/copy effect of `push_member` when no member child existed
for the key: a fresh node at the next arena index, typed by the key's
member type, recording the key as its active member, hung under `i`'s
member map; all other nodes untouched. -/
theorem pushMember_fresh (df : TypeId → List Int) (t : Tree) (i : NodeId) (k : MemberId)
    (t2 : Tree) (m : NodeId) (hi : i < t.size)
    (hma : assoc (t.node i).memberChildren k = none)
    (hpush : pushMember df t i k = .ok (t2, m)) :
    m = t.size ∧
    t2.size = t.size + 1 ∧
    (t2.node m).ty = k.memberType ∧
    (t2.node m).activeMember = some k ∧
    (t2.node m).parent = some i ∧
    (t2.node i).memberChildren = (k, m) :: (t.node i).memberChildren ∧
    (t2.node i).children = (t.node i).children ∧
    (t2.node i).parent = (t.node i).parent ∧
    (t2.node i).ty = (t.node i).ty ∧
    (t2.node i).activeMember = (t.node i).activeMember ∧
    (∀ q, q ≠ i → q < t.size → t2.node q = t.node q) := by
  cases hpar : (t.node i).parent.isSome with
  | false =>
    simp only [pushMember, hma, hpar, Bool.false_eq_true, if_false] at hpush
    rw [Except.ok.injEq] at hpush
    injection hpush with ht2 hm
    subst hm
    rw [← ht2]
    have hat := node_set_append_at t i
      { t.node i with memberChildren := (k, t.size) :: (t.node i).memberChildren }
      (⟨some i, k.memberType, df k.memberType, [], [], some k⟩ : Node) hi
    have hnew := node_set_append_new t i
      { t.node i with memberChildren := (k, t.size) :: (t.node i).memberChildren }
      (⟨some i, k.memberType, df k.memberType, [], [], some k⟩ : Node)
    refine ⟨rfl, size_set_append .., ?_, ?_, ?_, ?_, ?_, ?_, ?_, ?_, ?_⟩
    · rw [hnew]
    · rw [hnew]
    · rw [hnew]
    · rw [hat]
    · rw [hat]
    · rw [hat]
    · rw [hat]
    · rw [hat]
    · intro q hq hqs
      exact node_set_append_other t i _ _ q hq hqs
  | true =>
    cases hfind : findMember t i k with
    | error e => simp [pushMember, hma, hpar, hfind] at hpush
    | ok o =>
      cases o with
      | some f =>
        simp only [pushMember, hma, hpar, hfind, if_true] at hpush
        rw [Except.ok.injEq] at hpush
        injection hpush with ht2 hm
        subst hm
        rw [← ht2]
        have htyF : (t.node f).ty = k.memberType := findMember_ty t i k f hfind
        have hat := node_set_append_at t i
          { t.node i with memberChildren := (k, t.size) :: (t.node i).memberChildren }
          { t.node f with parent := some i, children := [], memberChildren := [], activeMember := some k } hi
        have hnew := node_set_append_new t i
          { t.node i with memberChildren := (k, t.size) :: (t.node i).memberChildren }
          { t.node f with parent := some i, children := [], memberChildren := [], activeMember := some k }
        refine ⟨rfl, size_set_append .., ?_, ?_, ?_, ?_, ?_, ?_, ?_, ?_, ?_⟩
        · rw [hnew]; exact htyF
        · rw [hnew]
        · rw [hnew]
        · rw [hat]
        · rw [hat]
        · rw [hat]
        · rw [hat]
        · rw [hat]
        · intro q hq hqs
          exact node_set_append_other t i _ _ q hq hqs
      | none =>
        simp only [pushMember, hma, hpar, hfind, if_true] at hpush
        rw [Except.ok.injEq] at hpush
        injection hpush with ht2 hm
        subst hm
        rw [← ht2]
        have hat := node_set_append_at t i
          { t.node i with memberChildren := (k, t.size) :: (t.node i).memberChildren }
          (⟨some i, k.memberType, df k.memberType, [], [], some k⟩ : Node) hi
        have hnew := node_set_append_new t i
          { t.node i with memberChildren := (k, t.size) :: (t.node i).memberChildren }
          (⟨some i, k.memberType, df k.memberType, [], [], some k⟩ : Node)
        refine ⟨rfl, size_set_append .., ?_, ?_, ?_, ?_, ?_, ?_, ?_, ?_, ?_⟩
        · rw [hnew]
        · rw [hnew]
        · rw [hnew]
        · rw [hat]
        · rw [hat]
        · rw [hat]
        · rw [hat]
        · rw [hat]
        · intro q hq hqs
          exact node_set_append_other t i _ _ q hq hqs

/-- Builds the C6 counterexample: `push_member` for field `a` of struct 4
(member type 1, offset 0) on the root, then `push_default<TestStruct>()`
on the resulting member node — both plain API calls. -/
def c6build : Except Err Tree := do
  let (t1, m) ← pushMember dfZero rootTree 0 ⟨4, 1, 0⟩
  let (t2, _) ← pushDefault dfZero t1 m 4
  pure t2

/-- The tree `c6build` produces: node 1 is field `a`'s settings node,
node 2 a struct-typed child under it. -/
def c6t : Tree :=
  ⟨[⟨none, 0, [], [], [(⟨4, 1, 0⟩, 1)], none⟩,
    ⟨some 0, 1, [0, 0], [(4, 2)], [], some ⟨4, 1, 0⟩⟩,
    ⟨some 1, 4, [0, 0], [], [], none⟩]⟩

/-- Counterexample to C6 as stated.  In the API-reachable tree `c6t`,
`find_member` for the *sibling* field `b` (same struct 4, same member
type 1, different offset 4) invoked on node 1 resolves to node 1 itself —
field `a`'s own member node — because the struct-typed child's seeded
`find` ascends with node 1's active member key and hits the root's member
map entry for `a`.  Mutating `a`'s field-specific settings (node 1)
therefore changes the payload resolved for `b`: the resolved node's
payload goes from `[0, 0]` to `[42, 0]`. -/
theorem C6_counterexample :
    c6build = .ok c6t ∧
    (c6t.node 1).activeMember = some ⟨4, 1, 0⟩ ∧
    findMember c6t 1 ⟨4, 1, 4⟩ = .ok (some 1) ∧
    findMember (setField c6t 1 0 42) 1 ⟨4, 1, 4⟩ = .ok (some 1) ∧
    (c6t.node 1).payload = [0, 0] ∧
    ((setField c6t 1 0 42).node 1).payload = [42, 0] := by decide

/-- C6 amended: member keys are the (struct type, member type, offset)
triple and are equal iff all three components match; and when the two
same-typed fields' settings are installed as member children of the *same
node* (the tests' usage), they are fully independent: the two
`push_member` calls produce distinct nodes, each key resolves to its own
node, and mutating either node's payload changes neither which node the
other key resolves to nor that node's payload.  (The unrestricted claim
is false: `C6_counterexample` shows a tree where `b`'s resolution reaches
`a`'s node through the active-member ascent.) -/
theorem C6_member_keys_amended (df : TypeId → List Int) :
    (∀ k1 k2 : MemberId, k1 = k2 ↔
      k1.structType = k2.structType ∧ k1.memberType = k2.memberType ∧ k1.offset = k2.offset) ∧
    (∀ (t : Tree) (n : NodeId) (ka kb : MemberId) (t1 : Tree) (j1 : NodeId)
        (t2 : Tree) (j2 : NodeId),
      ka ≠ kb →
      n < t.size →
      assoc (t.node n).memberChildren ka = none →
      assoc (t.node n).memberChildren kb = none →
      pushMember df t n ka = .ok (t1, j1) →
      pushMember df t1 n kb = .ok (t2, j2) →
      j1 ≠ j2 ∧
      findMember t2 n ka = .ok (some j1) ∧
      findMember t2 n kb = .ok (some j2) ∧
      (∀ f v,
        findMember (setField t2 j1 f v) n kb = .ok (some j2) ∧
        ((setField t2 j1 f v).node j2).payload = (t2.node j2).payload ∧
        findMember (setField t2 j2 f v) n ka = .ok (some j1) ∧
        ((setField t2 j2 f v).node j1).payload = (t2.node j1).payload)) := by
  constructor
  · intro k1 k2
    constructor
    · intro h; subst h; exact ⟨rfl, rfl, rfl⟩
    · rintro ⟨h1, h2, h3⟩
      cases k1; cases k2
      simp_all
  · intro t n ka kb t1 j1 t2 j2 hne hn hma hmb hp1 hp2
    obtain ⟨e1, e2, e3, e4, e5, e6, e7, e8, e9, e10, e11⟩ :=
      pushMember_fresh df t n ka t1 j1 hn hma hp1
    have hmb1 : assoc (t1.node n).memberChildren kb = none := by
      rw [e6, assoc_cons_ne ka kb j1 _ hne]
      exact hmb
    have hn1 : n < t1.size := by rw [e2]; exact Nat.lt_succ_of_lt hn
    obtain ⟨g1, g2, g3, g4, g5, g6, g7, g8, g9, g10, g11⟩ :=
      pushMember_fresh df t1 n kb t2 j2 hn1 hmb1 hp2
    have hj1n : j1 ≠ n := by rw [e1]; exact Nat.ne_of_gt hn
    have hj1s : j1 < t1.size := by rw [e1, e2]; exact Nat.lt_succ_self _
    have hj12 : j1 ≠ j2 := by rw [e1, g1, e2]; exact Nat.ne_of_lt (Nat.lt_succ_self _)
    have ht2j1 : t2.node j1 = t1.node j1 := g11 j1 hj1n hj1s
    have htyj1 : (t2.node j1).ty = ka.memberType := by rw [ht2j1]; exact e3
    have hfa : findMember t2 n ka = .ok (some j1) := by
      rw [findMember_eq, g6, assoc_cons_ne kb ka j2 _ (Ne.symm hne), e6, assoc_cons_self]
      simp [htyj1]
    have hfb : findMember t2 n kb = .ok (some j2) := by
      rw [findMember_eq, g6, assoc_cons_self]
      simp [g3]
    refine ⟨hj12, hfa, hfb, ?_⟩
    intro f v
    have hs1 : sameShape (setField t2 j1 f v) t2 := setField_shape t2 j1 f v
    have hs2 : sameShape (setField t2 j2 f v) t2 := setField_shape t2 j2 f v
    refine ⟨?_, ?_, ?_, ?_⟩
    · show findMemberA (setField t2 j1 f v) kb (n + 1) n = _
      rw [findMemberA_shape (setField t2 j1 f v) t2 hs1 kb (n + 1) n]
      exact hfb
    · rw [show (setField t2 j1 f v).node j2 = t2.node j2 from
        node_setNode_other t2 j1 _ j2 (Ne.symm hj12)]
    · show findMemberA (setField t2 j2 f v) ka (n + 1) n = _
      rw [findMemberA_shape (setField t2 j2 f v) t2 hs2 ka (n + 1) n]
      exact hfa
    · rw [show (setField t2 j2 f v).node j1 = t2.node j1 from
        node_setNode_other t2 j2 _ j1 hj12]

/-- The two trees of the C6 amended witness: field `a` (offset 0) and
field `b` (offset 4) of struct 4 pushed as member children of the root. -/
def c6wt1 : Tree :=
  ⟨[⟨none, 0, [], [], [(⟨4, 1, 0⟩, 1)], none⟩,
    ⟨some 0, 1, [0, 0], [], [], some ⟨4, 1, 0⟩⟩]⟩

def c6wt2 : Tree :=
  ⟨[⟨none, 0, [], [], [(⟨4, 1, 4⟩, 2), (⟨4, 1, 0⟩, 1)], none⟩,
    ⟨some 0, 1, [0, 0], [], [], some ⟨4, 1, 0⟩⟩,
    ⟨some 0, 1, [0, 0], [], [], some ⟨4, 1, 4⟩⟩]⟩

/-- Witness for the amended C6 at concrete inputs (both member keys
pushed on the root): distinct nodes, each key resolves to its own node,
and mutating `a`'s node leaves `b`'s resolution and payload unchanged. -/
theorem C6_member_keys_amended_witness :
    (1 : NodeId) ≠ 2 ∧
    findMember c6wt2 0 ⟨4, 1, 0⟩ = .ok (some 1) ∧
    findMember c6wt2 0 ⟨4, 1, 4⟩ = .ok (some 2) ∧
    findMember (setField c6wt2 1 0 42) 0 ⟨4, 1, 4⟩ = .ok (some 2) ∧
    ((setField c6wt2 1 0 42).node 2).payload = (c6wt2.node 2).payload := by
  obtain ⟨hj, hfa, hfb, hmut⟩ :=
    (C6_member_keys_amended dfZero).2 rootTree 0 ⟨4, 1, 0⟩ ⟨4, 1, 4⟩ c6wt1 1 c6wt2 2
      (by decide) (by decide) (by decide) (by decide) (by decide) (by decide)
  exact ⟨hj, hfa, hfb, (hmut 0 42).1, (hmut 0 42).2.1⟩

/-! ## C5: the real search order of `find_member` -/

/-- Modelled from the claim's words (C5): a member lookup that resolves
by exactly (a) the current node's member-key map, (b) if the current node
has a type-keyed child for the owning struct type, that child's plain
`find` for the member's type, (c) otherwise the parent with the same
search — and nothing else. -/
def findMemberClaimA (t : Tree) (k : MemberId) : Nat → NodeId → Except Err (Option NodeId)
  | 0, _ => .ok none
  | b + 1, i =>
    match assoc (t.node i).memberChildren k with
    | some j => if (t.node j).ty = k.memberType then .ok (some j) else .error .typeMismatch
    | none =>
      let afterB : Except Err (Option NodeId) :=
        match assoc (t.node i).children k.structType with
        | some s =>
          if (t.node s).ty = k.structType then findT t k.memberType s none
          else .error .typeMismatch
        | none => .ok none
      match afterB with
      | .error e => .error e
      | .ok (some j) => .ok (some j)
      | .ok none =>
        match (t.node i).parent with
        | some p => if p < i then findMemberClaimA t k b p else .ok none
        | none => .ok none

/-- The claim-order lookup (wrapper with sufficient fuel). -/
def findMemberClaim (t : Tree) (i : NodeId) (k : MemberId) : Except Err (Option NodeId) :=
  findMemberClaimA t k (i + 1) i

/-- The tree `root.push<int>()` (type id 1): only a type-keyed `int`
child, no member entry and no struct child anywhere. -/
def c5t : Tree :=
  ⟨[⟨none, 0, [], [(1, 1)], [], none⟩,
    ⟨some 0, 1, [0, 0], [], [], none⟩]⟩

/-- Counterexample to C5 as stated: on `c5t`, `find_member` for the key
(struct 4, member type 1, offset 0) resolves to the root's plain
type-keyed `int` child — a resolution source the claimed order
(member map, struct child, parent, "and to nothing else") does not
contain, as the claim-order lookup returns "not found" on the same
input. -/
theorem C5_counterexample :
    pushT dfZero rootTree 0 1 = .ok (c5t, 1) ∧
    findMember c5t 0 ⟨4, 1, 0⟩ = .ok (some 1) ∧
    findMemberClaim c5t 0 ⟨4, 1, 0⟩ = .ok none := by decide

/-- Probe (a): the current node's member map under the full key. -/
def probeMemberMap (t : Tree) (i : NodeId) (k : MemberId) : Except Err (Option NodeId) :=
  match assoc (t.node i).memberChildren k with
  | some j => if (t.node j).ty = k.memberType then .ok (some j) else .error .typeMismatch
  | none => .ok none

/-- Probe (b): the type-keyed child for the owning struct type, searched
via its `find` for the member type *seeded with the full member key* (so
it first checks that child's member map under the key, then ascends). -/
def probeStructChild (t : Tree) (i : NodeId) (k : MemberId) : Except Err (Option NodeId) :=
  match assoc (t.node i).children k.structType with
  | some s =>
    if (t.node s).ty = k.structType then findT t k.memberType s (some k)
    else .error .typeMismatch
  | none => .ok none

/-- Probe (c): the type-keyed child for the member's own type, returned
directly. -/
def probeMemberTypeChild (t : Tree) (i : NodeId) (k : MemberId) : Except Err (Option NodeId) :=
  match assoc (t.node i).children k.memberType with
  | some ms => if (t.node ms).ty = k.memberType then .ok (some ms) else .error .typeMismatch
  | none => .ok none

/-- First-match composition: keep `x` unless it is a clean miss. -/
def orElseProbe (x y : Except Err (Option NodeId)) : Except Err (Option NodeId) :=
  match x with
  | .ok none => y
  | r => r

/-- The amended search order, stated compositionally: (a), else (b),
else (c), else the parent with the same search. -/
def findMemberSpecA (t : Tree) (k : MemberId) : Nat → NodeId → Except Err (Option NodeId)
  | 0, _ => .ok none
  | b + 1, i =>
    orElseProbe (probeMemberMap t i k)
      (orElseProbe (probeStructChild t i k)
        (orElseProbe (probeMemberTypeChild t i k)
          (match (t.node i).parent with
            | some p => if p < i then findMemberSpecA t k b p else .ok none
            | none => .ok none)))

/-- The amended search order (wrapper with sufficient fuel). -/
def findMemberSpec (t : Tree) (i : NodeId) (k : MemberId) : Except Err (Option NodeId) :=
  findMemberSpecA t k (i + 1) i

theorem findMemberA_eq_spec (t : Tree) (k : MemberId) :
    ∀ b i, findMemberA t k b i = findMemberSpecA t k b i := by
  intro b
  induction b with
  | zero => intro i; rfl
  | succ b ih =>
    intro i
    simp only [findMemberA, findMemberSpecA, orElseProbe, probeMemberMap, probeStructChild,
      probeMemberTypeChild]
    cases hm : assoc (t.node i).memberChildren k with
    | some j =>
      by_cases hty : (t.node j).ty = k.memberType
      · simp [hty]
      · simp [hty]
    | none =>
      cases hcs : assoc (t.node i).children k.structType with
      | some s =>
        by_cases hst : (t.node s).ty = k.structType
        · simp only [hst, if_true]
          cases hfs : findT t k.memberType s (some k) with
          | error e => simp
          | ok o =>
            cases o with
            | some j => simp
            | none =>
              simp only []
              cases hcm : assoc (t.node i).children k.memberType with
              | some ms =>
                by_cases htym : (t.node ms).ty = k.memberType
                · simp [htym]
                · simp [htym]
              | none =>
                cases hp : (t.node i).parent with
                | none => simp
                | some p =>
                  by_cases hpi : p < i
                  · simp only [hpi, if_true]
                    exact ih p
                  · simp [hpi]
        · simp [hst]
      | none =>
        cases hcm : assoc (t.node i).children k.memberType with
        | some ms =>
          by_cases htym : (t.node ms).ty = k.memberType
          · simp [htym]
          · simp [htym]
        | none =>
          cases hp : (t.node i).parent with
          | none => simp
          | some p =>
            by_cases hpi : p < i
            · simp only [hpi, if_true]
              exact ih p
            · simp [hpi]

/-- C5 amended: `find_member` resolves by exactly this search order:
(a) the current node's member-key map; (b) if the current node has a
type-keyed child for the owning struct type, that child's `find` for the
member's type seeded with the full member key (that child's member map
under the key, then the ancestor ascent); (c) the current node's
type-keyed child for the member's own type, returned directly; (d)
otherwise the parent node with the same search — and nothing else.  So a
field lookup resolves to an explicit override for that exact field, else
a member override or type-keyed fallback reached through the owning
struct's child, else a plain type-keyed child for the member's own type
at the current node, else an ancestor's equivalent. -/
theorem C5_find_member_order_amended (t : Tree) (i : NodeId) (k : MemberId) :
    findMember t i k = findMemberSpec t i k :=
  findMemberA_eq_spec t k (i + 1) i

/-! ## C8: compile-time vs runtime member addressing -/

/-- The tree produced by the runtime `get_member` auto-insert on `c5t`. -/
def c8t : Tree :=
  ⟨[⟨none, 0, [], [(1, 1)], [(⟨4, 1, 0⟩, 2)], none⟩,
    ⟨some 0, 1, [0, 0], [], [], none⟩,
    ⟨some 0, 1, [0, 0], [], [], none⟩]⟩

/-- Counterexample to C8 as stated: on `c5t` (root with a plain `int`
child) address the same field both ways — compile-time key
(struct 4, member type 1, offset 0) and runtime instance at address 100
of size 8 with the field at address 100.  `find_member` resolves the
root's type-keyed `int` child (node 1) through its member-type-child
fallback, while `find_member_runtime` — which has no such fallback —
finds nothing; consequently the two `get_member` forms return different
stored nodes (the existing node 1 versus a freshly inserted node 2). -/
theorem C8_counterexample :
    findMember c5t 0 ⟨4, 1, 0⟩ = .ok (some 1) ∧
    findMemberRuntime c5t 0 4 1 100 8 100 = .ok none ∧
    getMemberCT dfZero true c5t 0 ⟨4, 1, 0⟩ = .ok (c5t, 1) ∧
    getMemberRuntime dfZero true c5t 0 4 1 100 8 100 = .ok (c8t, 2) := by decide

/-- On ancestor chains where no node owns a type-keyed child for the
owning struct type or for the member type, both member lookups reduce to
the same pure member-map walk and agree. -/
theorem runtimeMember_agree (t : Tree) (Tty Mty : TypeId) (instAddr size membAddr : Nat)
    (hin : ¬(membAddr < instAddr ∨ instAddr + size ≤ membAddr)) :
    ∀ i, (∀ m ∈ chain t i,
        assoc (t.node m).children Tty = none ∧ assoc (t.node m).children Mty = none) →
      findMemberRuntime t i Tty Mty instAddr size membAddr =
        findMember t i ⟨Tty, Mty, membAddr - instAddr⟩ := by
  intro i
  induction i using Nat.strong_induction_on with
  | _ i ih =>
    intro hchain
    have hmem : i ∈ chain t i := by rw [chain_eq]; exact List.mem_cons_self i _
    obtain ⟨hTi, hMi⟩ := hchain i hmem
    rw [findMemberRuntime_eq, findMember_eq]
    rw [if_neg hin]
    cases hm : assoc (t.node i).memberChildren ⟨Tty, Mty, membAddr - instAddr⟩ with
    | some j => simp
    | none =>
      simp only [hTi, hMi]
      cases hp : (t.node i).parent with
      | none => simp
      | some p =>
        by_cases hpi : p < i
        · simp only [hpi, if_true]
          have hsub : ∀ m ∈ chain t p, m ∈ chain t i := by
            intro m hmm
            rw [chain_eq]
            simp only [hp, hpi, if_true]
            exact List.mem_cons_of_mem i hmm
          exact ih p hpi (fun m hmm => hchain m (hsub m hmm))
        · simp [hpi]

/-- C8 amended: the two member-addressing forms agree exactly when the
extra probes that distinguish them never fire — in particular, whenever
no node on the ancestor chain owns a type-keyed child for the owning
struct type or for the member's own type, `find_member_runtime` with an
in-range field address computes the key (struct type, member type,
`membAddr - instAddr`) and resolves to the same stored node as
`find_member` with that key (both walk only the member maps); and
whenever the non-mutating lookups agree on a hit, both `get_member`
forms return that same stored node with the tree untouched.  In general
the two forms differ (`C8_counterexample`): `find_member` additionally
falls back to a type-keyed child of the member's own type and seeds the
struct child's search with the member key, while `find_member_runtime`
does neither. -/
theorem C8_member_addressing_amended (df : TypeId → List Int) (ai : Bool) (t : Tree)
    (i : NodeId) (Tty Mty : TypeId) (instAddr size membAddr : Nat)
    (h1 : instAddr ≤ membAddr) (h2 : membAddr < instAddr + size) :
    ((∀ m ∈ chain t i,
        assoc (t.node m).children Tty = none ∧ assoc (t.node m).children Mty = none) →
      findMemberRuntime t i Tty Mty instAddr size membAddr =
        findMember t i ⟨Tty, Mty, membAddr - instAddr⟩) ∧
    (∀ j, findMember t i ⟨Tty, Mty, membAddr - instAddr⟩ = .ok (some j) →
      findMemberRuntime t i Tty Mty instAddr size membAddr = .ok (some j) →
      getMemberCT df ai t i ⟨Tty, Mty, membAddr - instAddr⟩ = .ok (t, j) ∧
      getMemberRuntime df ai t i Tty Mty instAddr size membAddr = .ok (t, j)) := by
  have hin : ¬(membAddr < instAddr ∨ instAddr + size ≤ membAddr) := by
    push_neg
    exact ⟨h1, h2⟩
  constructor
  · intro hchain
    exact runtimeMember_agree t Tty Mty instAddr size membAddr hin i hchain
  · intro j hfm hfr
    constructor
    · simp [getMemberCT, hfm]
    · simp [getMemberRuntime, hfr]

/-- Witness for the amended C8: a root whose member map holds the key
(struct 4, member 1, offset 0) at node 1 and nothing else; both lookup
forms resolve node 1 and both `get_member` forms return it. -/
theorem C8_member_addressing_amended_witness :
    (findMemberRuntime c6wt1 0 4 1 100 8 100 = findMember c6wt1 0 ⟨4, 1, 0⟩) ∧
    (getMemberCT dfZero true c6wt1 0 ⟨4, 1, 0⟩ = .ok (c6wt1, 1) ∧
      getMemberRuntime dfZero true c6wt1 0 4 1 100 8 100 = .ok (c6wt1, 1)) :=
  ⟨(C8_member_addressing_amended dfZero true c6wt1 0 4 1 100 8 100
      (by decide) (by decide)).1 (by decide),
   (C8_member_addressing_amended dfZero true c6wt1 0 4 1 100 8 100
      (by decide) (by decide)).2 1 (by decide) (by decide)⟩

end SvhScope
